import Mathlib

/-!
# Verification of the `datamatrix` crate against its specification

This file gives a shallow embedding of the crate's core data model and
parsing pipeline (`src/lib.rs`, `src/datamatrix_builder.rs`,
`src/errors.rs`) and proves/refutes the specification claims about it.

Modelling conventions:
* a text file is a `List Str` of its raw lines (`Str := List Char`);
* `f64` values are modelled exactly by `F64` below (values are only
  parsed, stored, moved and compared — never subjected to arithmetic);
* `usize` is modelled as `ℕ`;
* fallible Rust code returns `Res α`, whose `panicked` constructor
  models a Rust panic (out-of-bounds indexing, `expect` failure, …).
-/

namespace DM

abbrev Str := List Char

/-- Model of an `f64` that was parsed from a plain decimal token: the
exact value `num / den`, with `den` a power of ten (`1` for integer
tokens).  The crate never computes with values — it only parses, stores,
copies and compares them — so this exact representation is faithful, and
on such tokens it is injective exactly like `f64` parsing. -/
structure F64 where
  num : Int
  den : Nat
deriving DecidableEq, Repr

instance (n : Nat) : OfNat F64 n := ⟨⟨n, 1⟩⟩

abbrev Q := F64

/-- The error enum from `src/errors.rs` (the `IoError` variant wraps
file-system failures and is outside the shallow embedding, which works
on already-read line lists). -/
inductive DMError where
  | IncorrectMatrixLabels (expected actual : Nat)
  | NotEnoughColumns (line needed : Nat) (content : Str)
  | TooManyColumns (line : Nat) (content : Str)
  | ParseError (line : Nat) (content : Str)
  | WrongNumberOfData (nData : Nat)
deriving DecidableEq, Repr

/-- Outcome of running a piece of Rust code: normal return, an `Err`
value, or a panic. -/
inductive Res (α : Type) where
  | ok : α → Res α
  | err : DMError → Res α
  | panicked : Res α
deriving DecidableEq, Repr

namespace Res

def bind {α β : Type} : Res α → (α → Res β) → Res β
  | .ok a, f => f a
  | .err e, _ => .err e
  | .panicked, _ => .panicked

@[simp] theorem bind_ok {α β : Type} (a : α) (f : α → Res β) :
    bind (.ok a) f = f a := rfl

@[simp] theorem bind_err {α β : Type} (e : DMError) (f : α → Res β) :
    bind (.err e) f = .err e := rfl

@[simp] theorem bind_panicked {α β : Type} (f : α → Res β) :
    bind .panicked f = .panicked := rfl

end Res

/-! ## Character / string primitives (ASCII fragment of the Rust `str` API) -/

def isWs (c : Char) : Bool := c = ' ' || c = '\t' || c = '\n' || c = '\r'

def isDigit (c : Char) : Bool := '0' ≤ c && c ≤ '9'

def digVal (c : Char) : Nat := c.toNat - '0'.toNat

/-- `str::trim`. -/
def trimStr (s : Str) : Str :=
  ((s.dropWhile isWs).reverse.dropWhile isWs).reverse

def splitWsAux : Str → Str → List Str
  | [], cur => if cur = [] then [] else [cur.reverse]
  | c :: rest, cur =>
    if isWs c then
      if cur = [] then splitWsAux rest []
      else cur.reverse :: splitWsAux rest []
    else splitWsAux rest (c :: cur)

/-- `str::split_whitespace` (collapses runs, drops empty tokens). -/
def splitWs (s : Str) : List Str := splitWsAux s []

def splitSepAux (sep : Char) : Str → Str → List Str
  | [], cur => [cur.reverse]
  | c :: rest, cur =>
    if c = sep then cur.reverse :: splitSepAux sep rest []
    else splitSepAux sep rest (c :: cur)

/-- `str::split(sep)` for a single-character separator: exact splitting,
empty fields preserved, always at least one field. -/
def splitSep (sep : Char) (s : Str) : List Str := splitSepAux sep s []

/-- ASCII lower-casing, `str::to_ascii_lowercase`. -/
def lowerChars (s : Str) : Str :=
  s.map fun c => if 'A' ≤ c && c ≤ 'Z' then Char.ofNat (c.toNat + 32) else c

def natOfDigits (s : Str) : Nat := s.foldl (fun a c => a * 10 + digVal c) 0

/-- `str::parse::<usize>()` restricted to the plain-decimal fragment
(optional `+` sign followed by at least one digit). -/
def parseNat (s : Str) : Option Nat :=
  let r := match s with
    | '+' :: t => t
    | t => t
  if r ≠ [] ∧ r.all isDigit then some (natOfDigits r) else none

/-- `str::parse::<f64>()` restricted to the plain-decimal fragment
(optional sign, integer digits, optional fractional part); the value
`ip.fp` is represented exactly as `±(ip·10^k + fp) / 10^k`. -/
def parseFloat (s : Str) : Option Q :=
  let (neg, r) : Bool × Str := match s with
    | '-' :: t => (true, t)
    | '+' :: t => (false, t)
    | t => (false, t)
  let sgn : Int → Int := fun z => if neg then -z else z
  if r.contains '.' then
    let ip := r.takeWhile (· ≠ '.')
    let fp := (r.dropWhile (· ≠ '.')).tail
    if ip.all isDigit ∧ fp.all isDigit ∧ ¬ fp.contains '.' ∧ (ip ≠ [] ∨ fp ≠ []) then
      some ⟨sgn (natOfDigits ip * 10 ^ fp.length + natOfDigits fp), 10 ^ fp.length⟩
    else none
  else
    if r ≠ [] ∧ r.all isDigit then some ⟨sgn (natOfDigits r), 1⟩ else none

/-! ## The `DataMatrix` structure (`src/lib.rs`) -/

structure DataMatrix where
  data : List (List Q)
  row_labels : List Str
  col_labels : List Str
deriving DecidableEq, Repr

/-- `DataMatrix::new`.  Mirrors the source exactly, including the fact
that an empty grid with a matching (empty) row-label list panics: the
source evaluates `data[0].len()` while constructing the error for the
`data.is_empty()` case. -/
def dmNew (data : List (List Q)) (row_labels col_labels : List Str) :
    Res DataMatrix :=
  if data.length ≠ row_labels.length then
    .err (.IncorrectMatrixLabels row_labels.length data.length)
  else
    match data with
    | [] => .panicked
    | d0 :: rest =>
      if d0.length ≠ col_labels.length then
        .err (.IncorrectMatrixLabels col_labels.length d0.length)
      else .ok ⟨d0 :: rest, row_labels, col_labels⟩

def DataMatrix.nrows (m : DataMatrix) : Nat := m.data.length

/-- `DataMatrix::ncols` (length of the first row, `0` if there is none). -/
def DataMatrix.ncols (m : DataMatrix) : Nat :=
  match m.data.head? with
  | some r => r.length
  | none => 0

/-- Grid lookup shared by the model: `data.get(i).and_then(|row| row.get(j))`. -/
def cellGet (g : List (List Q)) (i j : Nat) : Option Q :=
  (g.get? i).bind fun row => row.get? j

/-- `DataMatrix::get`. -/
def DataMatrix.get (m : DataMatrix) (i j : Nat) : Option Q :=
  cellGet m.data i j

/-- `DataMatrix::get_by_label`: each label is resolved with
`Iterator::position` (first match), missing labels short-circuit to `None`. -/
def DataMatrix.getByLabel (m : DataMatrix) (r c : Str) : Option Q :=
  match m.row_labels.indexOf? r, m.col_labels.indexOf? c with
  | some i, some j => m.get i j
  | _, _ => none

def DataMatrix.isSquare (m : DataMatrix) : Bool := m.nrows = m.ncols

/-! ## Shared machinery for the file readers -/

/-- First-match lookup in an association list (models `HashMap::get`;
all maps in the crate have pairwise-distinct keys, so an insertion-order
association list is a faithful model). -/
def alookup : List (Str × Nat) → Str → Option Nat
  | [], _ => none
  | (k, v) :: rest, l => if k = l then some v else alookup rest l

/-- `label_to_index.entry(key).or_insert_with(|| { let idx = current_index;
current_index += 1; idx })` from `read_matrix`: returns the updated map,
updated counter, and the index of `k`. -/
def rmAdd (m : List (Str × Nat)) (ctr : Nat) (k : Str) :
    List (Str × Nat) × Nat × Nat :=
  match alookup m k with
  | some i => (m, ctr, i)
  | none => (m ++ [(k, ctr)], ctr + 1, ctr)

/-- `data[i][j] = v` on a `Vec<Vec<f64>>`: out-of-bounds indexing panics. -/
def writeCell (g : List (List Q)) (i j : Nat) (v : Q) : Res (List (List Q)) :=
  match g.get? i with
  | none => .panicked
  | some row =>
    if j < row.length then .ok (g.set i (row.set j v))
    else .panicked

/-- Sequentially apply `data[i][j] = v` for each entry. -/
def writeEntries (g : List (List Q)) : List (Nat × Nat × Q) → Res (List (List Q))
  | [] => .ok g
  | (i, j, v) :: rest => Res.bind (writeCell g i j v) fun g1 => writeEntries g1 rest

/-- `for (label, &index) in &map { labels[index] = label.clone(); }`
starting from `acc` (a vector of empty strings): out-of-range explicit
indices panic. -/
def fillLabels (acc : List Str) : List (Str × Nat) → Res (List Str)
  | [] => .ok acc
  | (l, i) :: rest =>
    if i < acc.length then fillLabels (acc.set i l) rest else .panicked

def zerosGrid (r c : Nat) : List (List Q) :=
  List.replicate r (List.replicate c (0 : Q))

def enumLines (lines : List Str) : List (Nat × Str) := lines.enum

def natToStr (n : Nat) : Str := Nat.toDigits 10 n

/-- Integer square root (largest `k` with `k * k ≤ len`), matching the
source's `(len as f64).sqrt() as usize` for every possible vector
length, stated in a directly computable form. -/
def isqrt (len : Nat) : Nat :=
  ((List.range (len + 1)).filter fun k => k * k ≤ len).length - 1

theorem countP_le_range (s m : Nat) :
    ((List.range m).countP fun k => decide (k ≤ s)) = min (s + 1) m := by
  induction m with
  | zero => simp
  | succ m ih =>
    rw [List.range_succ, List.countP_append, ih]
    by_cases h : m ≤ s
    · have h1 : m < s + 1 := Nat.lt_succ_of_le h
      simp [List.countP_cons, h, Nat.min_eq_right (Nat.le_of_lt h1),
        Nat.min_eq_right h1]
    · have h1 : s + 1 ≤ m := Nat.succ_le_of_lt (Nat.lt_of_not_le h)
      simp [List.countP_cons, h, Nat.min_eq_left h1,
        Nat.min_eq_left (Nat.le_succ_of_le h1)]

theorem isqrt_eq_sqrt (len : Nat) : isqrt len = Nat.sqrt len := by
  have hcong : ((List.range (len + 1)).countP fun k => decide (k * k ≤ len)) =
      ((List.range (len + 1)).countP fun k => decide (k ≤ Nat.sqrt len)) := by
    apply List.countP_congr
    intro k _
    simp only [decide_eq_true_eq]
    constructor
    · intro h
      exact Nat.le_sqrt.mpr h
    · intro h
      exact Nat.le_sqrt.mp h
  have hlen : Nat.sqrt len ≤ len := Nat.sqrt_le_self len
  rw [isqrt, ← List.countP_eq_length_filter, hcong, countP_le_range,
    Nat.min_eq_left (Nat.succ_le_succ hlen)]
  rfl

/-! ## `read_matrix` (`src/lib.rs`, three-column format) -/

/-- The line loop of `read_matrix`: accumulates the label→index map, the
`current_index` counter, and the entry list (with the symmetric mirror
pushed right after each off-diagonal entry). -/
def readMatrixAux (ci cj cv maxCol : Nat) (sym : Bool) :
    List (Nat × Str) → List (Str × Nat) → Nat → List (Nat × Nat × Q) →
    Res (List (Str × Nat) × Nat × List (Nat × Nat × Q))
  | [], m, ctr, es => .ok (m, ctr, es)
  | (ln, line) :: rest, m, ctr, es =>
    let t := trimStr line
    if t = [] ∨ t.head? = some '#' then
      readMatrixAux ci cj cv maxCol sym rest m ctr es
    else
      let parts := splitWs t
      if parts.length ≤ maxCol then
        .err (.NotEnoughColumns (ln + 1) (maxCol + 1) t)
      else
        match parseFloat (parts.getD cv []) with
        | none => .err (.ParseError (ln + 1) t)
        | some v =>
          let s1 := rmAdd m ctr (parts.getD ci [])
          let s2 := rmAdd s1.1 s1.2.1 (parts.getD cj [])
          let i := s1.2.2
          let j := s2.2.2
          readMatrixAux ci cj cv maxCol sym rest s2.1 s2.2.1
            (es ++ (if sym ∧ i ≠ j then [(i, j, v), (j, i, v)] else [(i, j, v)]))

/-- `read_matrix`, with the file contents supplied as its list of lines. -/
def readMatrix (lines : List Str) (ci cj cv : Nat) (sym : Bool) :
    Res DataMatrix :=
  let maxCol := max (max ci cj) cv
  Res.bind (readMatrixAux ci cj cv maxCol sym (enumLines lines) [] 0 []) fun st =>
    let n := st.2.1
    Res.bind (writeEntries (zerosGrid n n) st.2.2) fun data =>
      Res.bind (fillLabels (List.replicate n []) st.1) fun labels =>
        dmNew data labels labels

/-! ## `read_column` (`src/lib.rs`, single-column format) -/

def readColumnAux : List (Nat × Str) → List Q → Res (List Q)
  | [], vs => .ok vs
  | (ln, line) :: rest, vs =>
    let t := trimStr line
    if t = [] ∨ t.head? = some '#' then readColumnAux rest vs
    else
      let parts := splitWs t
      if 1 < parts.length then .err (.TooManyColumns (ln + 1) t)
      else
        match parts.head? with
        | none => .panicked
        | some tok =>
          match parseFloat tok with
          | none => .err (.ParseError (ln + 1) t)
          | some v => readColumnAux rest (vs ++ [v])

/-- `values[start..end].to_vec()` row slicing shared by `read_column`,
`from_data` and `read_one_column`. -/
def sliceRows (vs : List Q) (n : Nat) : List (List Q) :=
  (List.range n).map fun i => (vs.drop (i * n)).take n

def readColumn (lines : List Str) : Res DataMatrix :=
  Res.bind (readColumnAux (enumLines lines) []) fun vs =>
    let total := vs.length
    let n := isqrt total
    if n * n ≠ total then
      .err (.ParseError 0
        ("Total number of values (".data ++ natToStr total ++
          ") is not a perfect square".data))
    else
      dmNew (sliceRows vs n)
        ((List.range n).map fun i => "row".data ++ natToStr i)
        ((List.range n).map fun i => "col".data ++ natToStr i)

/-! ## `read_matrix_indexed` (`src/lib.rs`, five-column format) -/

/-- The line loop of `read_matrix_indexed`: tracks `max_idx` and the
entry list `(i, j, row_label, col_label, value)`, mirroring symmetric
entries with the labels swapped. -/
instance : DecidableEq (Nat × Nat × Str × Str × Q) := inferInstance

def rmiAux (rl cl ri cix vi maxCol : Nat) (sym : Bool) :
    List (Nat × Str) → Nat → List (Nat × Nat × Str × Str × Q) →
    Res (Nat × List (Nat × Nat × Str × Str × Q))
  | [], mx, es => .ok (mx, es)
  | (ln, line) :: rest, mx, es =>
    let t := trimStr line
    if t = [] ∨ t.head? = some '#' then rmiAux rl cl ri cix vi maxCol sym rest mx es
    else
      let parts := splitWs t
      if parts.length ≤ maxCol then
        .err (.NotEnoughColumns (ln + 1) (maxCol + 1) t)
      else
        match parseNat (parts.getD ri []) with
        | none => .err (.ParseError (ln + 1) t)
        | some i =>
          match parseNat (parts.getD cix []) with
          | none => .err (.ParseError (ln + 1) t)
          | some j =>
            match parseFloat (parts.getD vi []) with
            | none => .err (.ParseError (ln + 1) t)
            | some v =>
              let rowLab := parts.getD rl []
              let colLab := parts.getD cl []
              rmiAux rl cl ri cix vi maxCol sym rest (max (max mx i) j)
                (es ++ (if sym ∧ i ≠ j then
                    [(i, j, rowLab, colLab, v), (j, i, colLab, rowLab, v)]
                  else [(i, j, rowLab, colLab, v)]))

/-- The fill loop of `read_matrix_indexed`:
`data[i][j] = value; row_labels_vec[i] = row_label; col_labels_vec[j] = col_label`. -/
def rmiFill (g : List (List Q)) (rlv clv : List Str) :
    List (Nat × Nat × Str × Str × Q) →
    Res (List (List Q) × List Str × List Str)
  | [] => .ok (g, rlv, clv)
  | (i, j, rus, cus, v) :: rest =>
    Res.bind (writeCell g i j v) fun g1 =>
      if i < rlv.length then
        if j < clv.length then rmiFill g1 (rlv.set i rus) (clv.set j cus) rest
        else .panicked
      else .panicked

/-- `read_matrix_indexed`, with the file contents supplied as lines. -/
def readMatrixIndexed (lines : List Str) (rl cl ri cix vi : Nat) (sym : Bool) :
    Res DataMatrix :=
  let maxCol := max (max (max (max cl rl) cix) ri) vi
  Res.bind (rmiAux rl cl ri cix vi maxCol sym (enumLines lines) 0 []) fun st =>
    let n := st.1 + 1
    Res.bind (rmiFill (zerosGrid n n) (List.replicate n []) (List.replicate n []) st.2)
      fun fin => dmNew fin.1 fin.2.1 fin.2.2

/-! ## `Indexer` (`src/datamatrix_builder.rs`) -/

abbrev Indexer := List (Str × Nat)

/-- `Indexer::add`: auto-increment insertion, first-seen order, index =
current number of distinct labels. -/
def idxAdd (m : Indexer) (l : Str) : Indexer × Nat :=
  match alookup m l with
  | some i => (m, i)
  | none => (m ++ [(l, m.length)], m.length)

/-- `Indexer::add_explicit`: `entry(label).or_insert(idx)` — the first
assignment wins, a later assignment for a known label is ignored. -/
def idxAddExplicit (m : Indexer) (l : Str) (i : Nat) : Indexer :=
  match alookup m l with
  | some _ => m
  | none => m ++ [(l, i)]

/-- `Indexer::index`: `.expect("Label not found in indexer")` panics on a
missing label. -/
def idxIndex (m : Indexer) (l : Str) : Res Nat :=
  match alookup m l with
  | some i => .ok i
  | none => .panicked

/-- `Indexer::max_index` is the number of distinct labels. -/
def idxMaxIndex (m : Indexer) : Nat := m.length

/-- `Indexer::to_vec`: fill a `len()`-sized vector of empty strings at
each label's index (panics when an explicit index is out of range). -/
def idxToVec (m : Indexer) : Res (List Str) :=
  fillLabels (List.replicate m.length []) m

/-! ## `parse_plain` (`src/datamatrix_builder.rs`) -/

def tokenizeLine (sep : Char) (line : Str) : List Str :=
  if sep = ' ' then splitWs line else splitSep sep line

/-- The line filter/tokenizer of `parse_plain`.  Note that the comment
check is `line.starts_with('#')` on the *untrimmed* line, while
emptiness is checked after trimming; header skipping happens after the
filter; the surviving line is tokenized untrimmed. -/
def parsePlainAux (sep : Char) (skipHeader : Bool) :
    List Str → Bool → List (List Str)
  | [], _ => []
  | line :: rest, firstPassed =>
    if trimStr line = [] ∨ line.head? = some '#' then
      parsePlainAux sep skipHeader rest firstPassed
    else if ¬ firstPassed ∧ skipHeader then
      parsePlainAux sep skipHeader rest true
    else
      tokenizeLine sep line :: parsePlainAux sep skipHeader rest firstPassed

def parsePlain (sep : Char) (skipHeader : Bool) (lines : List Str) :
    List (List Str) :=
  parsePlainAux sep skipHeader lines false

/-! ## `guess_separator` (`src/datamatrix_builder.rs`)

A model of the `std::path::Path` extension machinery for ordinary paths
(`/`-separated, without `.`/`..` components). -/

def dropTrailingSlashes (p : Str) : Str :=
  (p.reverse.dropWhile (· = '/')).reverse

def afterLastSlash (p : Str) : Str :=
  (p.reverse.takeWhile (· ≠ '/')).reverse

/-- `Path::file_name` for ordinary paths. -/
def fileNameOf (p : Str) : Option Str :=
  let name := afterLastSlash (dropTrailingSlashes p)
  if name = [] ∨ name = ['.'] ∨ name = ['.', '.'] then none else some name

/-- Split a file name at its last `.`: `some (stem, ext)` unless there
is no dot or the only role of the dot is to lead a hidden file
(dot in first position). -/
def splitLastDotAux : Str → Str → Option (Str × Str)
  | [], _ => none
  | c :: restRev, acc =>
    if c = '.' then
      if restRev = [] then none else some (restRev.reverse, acc)
    else splitLastDotAux restRev (c :: acc)

def splitLastDot (name : Str) : Option (Str × Str) :=
  splitLastDotAux name.reverse []

/-- `Path::extension`. -/
def pathExtension (p : Str) : Option Str :=
  (fileNameOf p).bind fun n => (splitLastDot n).map Prod.snd

/-- `Path::file_stem`. -/
def pathFileStem (p : Str) : Option Str :=
  (fileNameOf p).map fun n => ((splitLastDot n).map Prod.fst).getD n

def compressionExts : List Str :=
  ["gz".data, "bz2".data, "xz".data, "zst".data, "zip".data]

/-- `guess_separator`: infer the field separator from the (lower-cased)
extension, peeling exactly one compression suffix first. -/
def guessSeparator (p : Str) : Char :=
  let ext : Str :=
    match pathExtension p with
    | some e =>
      let el := lowerChars e
      if el ∈ compressionExts then
        match pathFileStem p with
        | some s =>
          match (splitLastDot s).map Prod.snd with
          | some e2 => lowerChars e2
          | none => []
        | none => []
      else el
    | none => []
  if ext = "dat".data then ' '
  else if ext = "csv".data then ','
  else if ext = "tsv".data then '\t'
  else if ext = "tab".data then '\t'
  else if ext = "psv".data then '|'
  else if ext = "ssv".data then ';'
  else ' '

/-! ## `DataMatrixBuilder` (`src/datamatrix_builder.rs`) -/

structure Builder where
  row_label_col : Nat
  col_label_col : Nat
  data_col : Nat
  row_idx_col : Option Nat
  col_idx_col : Option Nat
  separator : Option Char
  symmetric : Bool
  skip_header : Bool
  labels : Option (List Str)
deriving DecidableEq, Repr

/-- `DataMatrixBuilder::new`. -/
def Builder.new : Builder :=
  ⟨0, 1, 2, none, none, none, false, false, none⟩

def Builder.labelColumns (b : Builder) (r c : Nat) : Builder :=
  { b with row_label_col := r, col_label_col := c }

def Builder.withLabels (b : Builder) (ls : List Str) : Builder :=
  { b with labels := some ls }

def Builder.dataColumn (b : Builder) (v : Nat) : Builder :=
  { b with data_col := v }

def Builder.indexColumns (b : Builder) (r c : Nat) : Builder :=
  { b with row_idx_col := some r, col_idx_col := some c }

def Builder.withSeparator (b : Builder) (s : Char) : Builder :=
  { b with separator := some s }

def Builder.withSkipHeader (b : Builder) (f : Bool) : Builder :=
  { b with skip_header := f }

def Builder.withSymmetric (b : Builder) (f : Bool) : Builder :=
  { b with symmetric := f }

/-- `DataMatrixBuilder::from_data`. -/
def fromData (b : Builder) (data : List Q) : Res DataMatrix :=
  let len := data.length
  let n := isqrt len
  if n * n ≠ len then .err (.WrongNumberOfData len)
  else
    let labs : List Str × List Str :=
      match b.labels with
      | some given => (given, given)
      | none =>
        ((List.range n).map fun i => "row-".data ++ natToStr (i + 1),
         (List.range n).map fun i => "col-".data ++ natToStr (i + 1))
    dmNew (sliceRows data n) labs.1 labs.2

/-- `format!("{:?}", parts)` on a `Vec<String>`. -/
def debugFmtParts (parts : List Str) : Str :=
  '[' :: (List.intercalate ", ".data
    (parts.map fun p => '"' :: (p ++ ['"']))) ++ [']']

/-- The value-collection loop of `DataMatrixBuilder::read_one_column`:
a line with too few tokens fails with `NotEnoughColumns`; extra tokens
beyond the configured column are ignored. -/
def readOneColumnAux (column : Nat) :
    List (Nat × List Str) → List Q → Res (List Q)
  | [], vs => .ok vs
  | (lineNum, parts) :: rest, vs =>
    if parts.length ≤ column then
      .err (.NotEnoughColumns (lineNum + 1) (column + 1) (debugFmtParts parts))
    else
      match parseFloat (parts.getD column []) with
      | none => .err (.ParseError (lineNum + 1) (parts.getD column []))
      | some v => readOneColumnAux column rest (vs ++ [v])

/-- `DataMatrixBuilder::read_one_column` (always splits on whitespace). -/
def readOneColumn (b : Builder) (lines : List Str) (column : Nat)
    (labels : List Str) : Res DataMatrix :=
  let rows := parsePlain ' ' b.skip_header lines
  Res.bind (readOneColumnAux column rows.enum []) fun vs =>
    let n := labels.length
    if n * n ≠ vs.length then
      .err (.ParseError 0
        ("Expected ".data ++ natToStr n ++ "² = ".data ++ natToStr (n * n) ++
          " values, but found ".data ++ natToStr vs.length))
    else dmNew (sliceRows vs n) labels labels

/-- Pass 1 of `from_file` when explicit index columns are configured:
parse the two index tokens (`ParseError` carries the 0-based post-filter
line number and the offending token) and record the labels with
`add_explicit`; raw `parts[...]` indexing panics on short lines. -/
def ffPass1Explicit (rlc clc ric cic : Nat) (sym : Bool) :
    List (Nat × List Str) → Indexer → Indexer → Res (Indexer × Indexer)
  | [], rowIdxr, colIdxr => .ok (rowIdxr, colIdxr)
  | (lineNo, parts) :: rest, rowIdxr, colIdxr =>
    match parts.get? ric with
    | none => .panicked
    | some tokR =>
      match parseNat tokR with
      | none => .err (.ParseError lineNo tokR)
      | some rIdx =>
        match parts.get? cic with
        | none => .panicked
        | some tokC =>
          match parseNat tokC with
          | none => .err (.ParseError lineNo tokC)
          | some cIdx =>
            match parts.get? rlc with
            | none => .panicked
            | some rowLab =>
              match parts.get? clc with
              | none => .panicked
              | some colLab =>
                let rowIdxr1 := idxAddExplicit rowIdxr rowLab rIdx
                if sym then
                  ffPass1Explicit rlc clc ric cic sym rest
                    (idxAddExplicit rowIdxr1 colLab cIdx) colIdxr
                else
                  ffPass1Explicit rlc clc ric cic sym rest rowIdxr1
                    (idxAddExplicit colIdxr colLab cIdx)

/-- Pass 1 of `from_file` without explicit index columns: auto-indexing
via `Indexer::add`; raw `parts[...]` indexing panics on short lines. -/
def ffPass1Auto (rlc clc : Nat) (sym : Bool) :
    List (List Str) → Indexer → Indexer → Res (Indexer × Indexer)
  | [], rowIdxr, colIdxr => .ok (rowIdxr, colIdxr)
  | parts :: rest, rowIdxr, colIdxr =>
    match parts.get? rlc with
    | none => .panicked
    | some rowLab =>
      match parts.get? clc with
      | none => .panicked
      | some colLab =>
        let r1 := (idxAdd rowIdxr rowLab).1
        if sym then
          ffPass1Auto rlc clc sym rest (idxAdd r1 colLab).1 colIdxr
        else
          ffPass1Auto rlc clc sym rest r1 (idxAdd colIdxr colLab).1

/-- Pass 2 of `from_file`: resolve both labels (`expect` panics if
missing), parse the value, write the cell, and mirror it when symmetric. -/
def ffFill (rlc clc dc : Nat) (sym : Bool) (rowIdxr colIdxr : Indexer) :
    List (Nat × List Str) → List (List Q) → Res (List (List Q))
  | [], g => .ok g
  | (lineNo, parts) :: rest, g =>
    match parts.get? rlc with
    | none => .panicked
    | some rowLab =>
      match parts.get? clc with
      | none => .panicked
      | some colLab =>
        Res.bind (idxIndex rowIdxr rowLab) fun iRow =>
        Res.bind (idxIndex colIdxr colLab) fun jCol =>
          match parts.get? dc with
          | none => .panicked
          | some tok =>
            match parseFloat tok with
            | none => .err (.ParseError lineNo tok)
            | some v =>
              Res.bind (writeCell g iRow jCol v) fun g1 =>
                if sym then
                  Res.bind (writeCell g1 jCol iRow v) fun g2 =>
                    ffFill rlc clc dc sym rowIdxr colIdxr rest g2
                else ffFill rlc clc dc sym rowIdxr colIdxr rest g1

/-- The separator used by `from_file`: the configured one, otherwise
inferred from the file name. -/
def ffSep (b : Builder) (path : Str) : Char :=
  match b.separator with
  | none => guessSeparator path
  | some c => c

/-- `DataMatrixBuilder::from_file`, with the file contents supplied as
its list of lines (`path` is only consulted for separator inference). -/
def fromFile (b : Builder) (path : Str) (lines : List Str) : Res DataMatrix :=
  match b.labels with
  | some ls => readOneColumn b lines b.data_col ls
  | none =>
    let separator := ffSep b path
    let toks := parsePlain separator b.skip_header lines
    Res.bind
      (match b.row_idx_col, b.col_idx_col with
       | some ric, some cic =>
         ffPass1Explicit b.row_label_col b.col_label_col ric cic b.symmetric
           toks.enum [] []
       | _, _ =>
         ffPass1Auto b.row_label_col b.col_label_col b.symmetric toks [] [])
      fun idxrs =>
        let rowIdxr := idxrs.1
        let colIdxr := if b.symmetric then rowIdxr else idxrs.2
        let g0 := zerosGrid (idxMaxIndex rowIdxr) (idxMaxIndex colIdxr)
        Res.bind (idxToVec rowIdxr) fun rowLabels =>
        Res.bind (idxToVec colIdxr) fun colLabels =>
        Res.bind (ffFill b.row_label_col b.col_label_col b.data_col
            b.symmetric rowIdxr colIdxr toks.enum g0) fun data =>
          dmNew data rowLabels colLabels

/-! ## Generic lemmas: outcomes -/

/-- The successful part of an outcome (used to compare runs that differ
only in failure diagnostics such as line numbers). -/
def okPart {α : Type} : Res α → Option α
  | .ok a => some a
  | .err _ => none
  | .panicked => none

@[simp] theorem okPart_ok {α : Type} (a : α) : okPart (.ok a) = some a := rfl

@[simp] theorem okPart_err {α : Type} (e : DMError) : okPart (.err e : Res α) = none := rfl

@[simp] theorem okPart_panicked {α : Type} : okPart (.panicked : Res α) = none := rfl

theorem okPart_bind {α β : Type} (r : Res α) (f : α → Res β) :
    okPart (Res.bind r f) = (okPart r).bind fun a => okPart (f a) := by
  cases r <;> rfl

/-! ## Generic lemmas: grids and write sequences -/

/-- The value of the last entry in the list writing cell `(i, j)`
(entries later in the list take precedence, matching sequential writes). -/
def lastVal : List (Nat × Nat × Q) → Nat → Nat → Option Q
  | [], _, _ => none
  | (a, b, v) :: es, i, j =>
    match lastVal es i j with
    | some w => some w
    | none => if a = i ∧ b = j then some v else none

theorem lastVal_append (es fs : List (Nat × Nat × Q)) (i j : Nat) :
    lastVal (es ++ fs) i j =
      match lastVal fs i j with
      | some w => some w
      | none => lastVal es i j := by
  induction es with
  | nil => cases h : lastVal fs i j <;> simp [lastVal, h]
  | cons e es ih =>
    obtain ⟨a, b, v⟩ := e
    simp only [List.cons_append, lastVal, List.append_eq]
    rw [ih]
    cases lastVal fs i j <;> cases lastVal es i j <;> simp

/-- Entry lists produced by a symmetric build: a concatenation of
diagonal singletons and mirrored pairs. -/
inductive Paired : List (Nat × Nat × Q) → Prop
  | nil : Paired []
  | diag (i : Nat) (v : Q) {es : List (Nat × Nat × Q)} :
      Paired es → Paired ((i, i, v) :: es)
  | pair (i j : Nat) (v : Q) {es : List (Nat × Nat × Q)} :
      Paired es → Paired ((i, j, v) :: (j, i, v) :: es)

theorem Paired.append {es fs : List (Nat × Nat × Q)}
    (h1 : Paired es) (h2 : Paired fs) : Paired (es ++ fs) := by
  induction h1 with
  | nil => simpa using h2
  | diag i v _ ih => exact Paired.diag i v ih
  | pair i j v _ ih => exact Paired.pair i j v ih

theorem lastVal_symm {es : List (Nat × Nat × Q)} (h : Paired es)
    (i j : Nat) : lastVal es i j = lastVal es j i := by
  induction h with
  | nil => rfl
  | diag a v _ ih =>
    simp only [lastVal, ih]
    cases lastVal _ j i <;> simp [and_comm]
  | pair a b v _ ih =>
    simp only [lastVal]
    rw [ih]
    cases h' : lastVal _ j i with
    | some w => simp
    | none =>
      by_cases h1 : b = i ∧ a = j
      · obtain ⟨rfl, rfl⟩ := h1
        by_cases hij : b = a <;> simp [hij]
      · by_cases h2 : a = i ∧ b = j
        · obtain ⟨rfl, rfl⟩ := h2
          by_cases hij : b = a <;> simp [hij]
        · have h1' : ¬ (b = j ∧ a = i) := fun hh => h2 ⟨hh.2, hh.1⟩
          have h2' : ¬ (a = j ∧ b = i) := fun hh => h1 ⟨hh.2, hh.1⟩
          simp [h1, h2, h1', h2']

theorem mem_of_get? {α : Type} {l : List α} {n : Nat} {a : α}
    (h : l.get? n = some a) : a ∈ l := by
  obtain ⟨h1, h2⟩ := List.get?_eq_some.mp h
  exact h2 ▸ List.get_mem l n h1

theorem get?_replicate_of_lt {α : Type} (a : α) {n i : Nat} (h : i < n) :
    (List.replicate n a).get? i = some a := by
  rw [List.get?_eq_get (by simpa using h)]
  simp

theorem cellGet_zerosGrid (r c i j : Nat) :
    cellGet (zerosGrid r c) i j =
      if i < r ∧ j < c then some 0 else none := by
  unfold cellGet zerosGrid
  by_cases hi : i < r
  · rw [get?_replicate_of_lt _ hi]
    by_cases hj : j < c
    · rw [Option.some_bind, get?_replicate_of_lt _ hj, if_pos ⟨hi, hj⟩]
    · rw [Option.some_bind, List.get?_eq_none.mpr (by simpa using Nat.le_of_not_lt hj),
        if_neg (fun hh => hj hh.2)]
  · rw [List.get?_eq_none.mpr (by simpa using Nat.le_of_not_lt hi),
      Option.none_bind, if_neg (fun hh => hi hh.1)]

/-- A grid with `r` rows, all of length `c`. -/
def wellShaped (g : List (List Q)) (r c : Nat) : Prop :=
  g.length = r ∧ ∀ row ∈ g, row.length = c

theorem wellShaped_zerosGrid (r c : Nat) : wellShaped (zerosGrid r c) r c := by
  refine ⟨by simp [zerosGrid], fun row hrow => ?_⟩
  rw [List.eq_of_mem_replicate hrow]
  simp

theorem writeCell_ok {g g' : List (List Q)} {i j : Nat} {v : Q}
    (h : writeCell g i j v = .ok g') :
    ∃ row, g.get? i = some row ∧ j < row.length ∧
      g' = g.set i (row.set j v) := by
  unfold writeCell at h
  split at h
  · exact absurd h (by simp)
  next row hr =>
    split at h
    next hj => cases h; exact ⟨row, hr, hj, rfl⟩
    next hj => exact absurd h (by simp)

theorem writeCell_isOk {g : List (List Q)} {i j : Nat} {v : Q} {row : List Q}
    (hr : g.get? i = some row) (hj : j < row.length) :
    writeCell g i j v = .ok (g.set i (row.set j v)) := by
  unfold writeCell
  rw [hr]
  simp only [hj, if_pos]

theorem rowGet_writeCell_ok {g g' : List (List Q)} {i j : Nat} {v : Q}
    (h : writeCell g i j v = .ok g') (a : Nat) :
    (g'.get? a).map List.length = (g.get? a).map List.length := by
  obtain ⟨row, hr, hj, rfl⟩ := writeCell_ok h
  have hi : i < g.length := (List.get?_eq_some.mp hr).choose
  by_cases hai : a = i
  · subst hai
    rw [List.get?_set_eq_of_lt _ hi, hr]
    simp
  · rw [List.get?_set_ne _ _ fun hh => hai hh.symm]


theorem length_writeCell_ok {g g' : List (List Q)} {i j : Nat} {v : Q}
    (h : writeCell g i j v = .ok g') : g'.length = g.length := by
  obtain ⟨row, _, _, rfl⟩ := writeCell_ok h
  simp

theorem wellShaped_writeCell_ok {g g' : List (List Q)} {r c i j : Nat} {v : Q}
    (hs : wellShaped g r c) (h : writeCell g i j v = .ok g') :
    wellShaped g' r c := by
  obtain ⟨row, hr, hj, rfl⟩ := writeCell_ok h
  refine ⟨by simpa using hs.1, fun row' hrow' => ?_⟩
  rcases List.mem_or_eq_of_mem_set hrow' with hmem | rfl
  · exact hs.2 _ hmem
  · rw [List.length_set]
    exact hs.2 _ (mem_of_get? hr)

theorem cellGet_writeCell_ok {g g' : List (List Q)} {i j : Nat} {v : Q}
    (h : writeCell g i j v = .ok g') (a b : Nat) :
    cellGet g' a b = if i = a ∧ j = b then some v else cellGet g a b := by
  obtain ⟨row, hr, hj, rfl⟩ := writeCell_ok h
  have hi : i < g.length := (List.get?_eq_some.mp hr).choose
  by_cases hai : i = a
  · subst hai
    rw [cellGet, List.get?_set_eq_of_lt _ hi, Option.some_bind]
    by_cases hbj : j = b
    · subst hbj
      rw [List.get?_set_eq_of_lt _ hj, if_pos ⟨rfl, rfl⟩]
    · rw [List.get?_set_ne _ _ fun hh => hbj hh, if_neg fun hh => hbj hh.2,
        cellGet, hr, Option.some_bind]
  · rw [cellGet, List.get?_set_ne _ _ fun hh => hai hh,
      if_neg fun hh => hai hh.1]
    rfl

theorem writeCell_total {g : List (List Q)} {r c i j : Nat} (v : Q)
    (hs : wellShaped g r c) (hi : i < r) (hj : j < c) :
    ∃ g', writeCell g i j v = .ok g' := by
  have hi' : i < g.length := hs.1 ▸ hi
  cases hr : g.get? i with
  | none => exact absurd (List.get?_eq_none.mp hr) (Nat.not_le_of_lt hi')
  | some row =>
    have hlen : row.length = c := hs.2 _ (mem_of_get? hr)
    exact ⟨_, writeCell_isOk hr (hlen ▸ hj)⟩

theorem writeEntries_append (g : List (List Q)) (es fs : List (Nat × Nat × Q)) :
    writeEntries g (es ++ fs) =
      Res.bind (writeEntries g es) fun g1 => writeEntries g1 fs := by
  induction es generalizing g with
  | nil => rfl
  | cons e es ih =>
    obtain ⟨i, j, v⟩ := e
    simp only [List.cons_append, writeEntries]
    cases writeCell g i j v <;> simp [ih]

theorem writeEntries_ok {g g' : List (List Q)} {es : List (Nat × Nat × Q)}
    (h : writeEntries g es = .ok g') :
    g'.length = g.length ∧
    (∀ a, (g'.get? a).map List.length = (g.get? a).map List.length) ∧
    (∀ i j, cellGet g' i j =
      match lastVal es i j with
      | some v => some v
      | none => cellGet g i j) := by
  induction es generalizing g with
  | nil =>
    cases h
    exact ⟨rfl, fun _ => rfl, fun i j => by simp [lastVal]⟩
  | cons e es ih =>
    obtain ⟨a, b, v⟩ := e
    simp only [writeEntries] at h
    cases hw : writeCell g a b v with
    | ok g1 =>
      rw [hw] at h
      simp only [Res.bind_ok] at h
      obtain ⟨hlen, hrow, hcell⟩ := ih h
      refine ⟨hlen.trans (length_writeCell_ok hw), ?_, ?_⟩
      · intro x
        exact (hrow x).trans (rowGet_writeCell_ok hw x)
      · intro i j
        rw [hcell i j, lastVal]
        cases hl : lastVal es i j with
        | some w => simp
        | none =>
          simp only
          rw [cellGet_writeCell_ok hw]
          by_cases hab : a = i ∧ b = j
          · simp [hab.1, hab.2]
          · rw [if_neg hab, if_neg hab]
    | err e0 => rw [hw] at h; exact absurd h (by simp)
    | panicked => rw [hw] at h; exact absurd h (by simp)

theorem writeEntries_total {g : List (List Q)} {r c : Nat}
    {es : List (Nat × Nat × Q)} (hs : wellShaped g r c)
    (h : ∀ e ∈ es, e.1 < r ∧ e.2.1 < c) :
    ∃ g', writeEntries g es = .ok g' ∧ wellShaped g' r c := by
  induction es generalizing g with
  | nil => exact ⟨g, rfl, hs⟩
  | cons e es ih =>
    obtain ⟨i, j, v⟩ := e
    obtain ⟨hi, hj⟩ := h (i, j, v) (by simp)
    obtain ⟨g1, hw⟩ := writeCell_total v hs hi hj
    obtain ⟨g', hg', hs'⟩ := ih (wellShaped_writeCell_ok hs hw)
      (fun e he => h e (List.mem_cons_of_mem _ he))
    exact ⟨g', by simp [writeEntries, hw, hg'], hs'⟩

/-! ## Generic lemmas: label↔index maps -/

theorem alookup_append (m1 m2 : List (Str × Nat)) (l : Str) :
    alookup (m1 ++ m2) l =
      match alookup m1 l with
      | some x => some x
      | none => alookup m2 l := by
  induction m1 with
  | nil => cases h : alookup m2 l <;> simp [alookup, h]
  | cons e m1 ih =>
    obtain ⟨k, v⟩ := e
    by_cases hk : k = l
    · simp [alookup, hk]
    · simp only [List.cons_append, List.append_eq, alookup, if_neg hk, ih]

theorem alookup_eq_none_iff (m : List (Str × Nat)) (l : Str) :
    alookup m l = none ↔ l ∉ m.map Prod.fst := by
  induction m with
  | nil => simp [alookup]
  | cons e m ih =>
    obtain ⟨k, v⟩ := e
    by_cases hk : k = l
    · simp [alookup, hk]
    · have hk' : ¬ l = k := fun hh => hk hh.symm
      simp [alookup, hk, hk', ih]

theorem alookup_mem {m : List (Str × Nat)} {l : Str} {i : Nat}
    (h : alookup m l = some i) : (l, i) ∈ m := by
  induction m with
  | nil => exact absurd h (by simp [alookup])
  | cons e m ih =>
    obtain ⟨k, v⟩ := e
    by_cases hk : k = l
    · rw [alookup, if_pos hk] at h
      cases h
      exact hk ▸ List.mem_cons_self _ _
    · rw [alookup, if_neg hk] at h
      exact List.mem_cons_of_mem _ (ih h)

/-- Invariant of the crate's auto-increment label maps: the indices are
`0, 1, 2, …` in insertion order and the labels are pairwise distinct. -/
def AInv (m : List (Str × Nat)) : Prop :=
  m.map Prod.snd = List.range m.length ∧ (m.map Prod.fst).Nodup

theorem AInv_nil : AInv [] := ⟨rfl, List.nodup_nil⟩

theorem AInv_get {m : List (Str × Nat)} (h : AInv m) {l : Str} {i : Nat}
    (hm : (l, i) ∈ m) : m.get? i = some (l, i) := by
  obtain ⟨⟨p, hplt⟩, hp⟩ := List.mem_iff_get.mp hm
  have hsnd : (m.map Prod.snd).get ⟨p, by simpa using hplt⟩ = i := by
    rw [List.get_map, hp]
  have hrange : (m.map Prod.snd).get ⟨p, by simpa using hplt⟩ = p := by
    have := h.1
    rw [List.get_of_eq this]
    simp
  have hpi : p = i := hrange ▸ hsnd
  subst hpi
  rw [List.get?_eq_get hplt, hp]

theorem alookup_lt {m : List (Str × Nat)} (h : AInv m) {l : Str} {i : Nat}
    (hl : alookup m l = some i) : i < m.length := by
  have hmem : (l, i) ∈ m := alookup_mem hl
  have : i ∈ m.map Prod.snd := List.mem_map_of_mem Prod.snd hmem
  rw [h.1] at this
  exact List.mem_range.mp this

theorem alookup_inj {m : List (Str × Nat)} (h : AInv m) {a b : Str} {i : Nat}
    (ha : alookup m a = some i) (hb : alookup m b = some i) : a = b := by
  have h1 := AInv_get h (alookup_mem ha)
  have h2 := AInv_get h (alookup_mem hb)
  rw [h1] at h2
  exact (Prod.mk.injEq _ _ _ _ ▸ Option.some.inj h2).1

theorem mem_keys_iff_alookup (m : List (Str × Nat)) (l : Str) :
    l ∈ m.map Prod.fst ↔ (alookup m l).isSome := by
  rcases h : alookup m l with _ | i
  · simpa using (alookup_eq_none_iff m l).mp h
  · simp only [Option.isSome_some, iff_true]
    exact List.mem_map_of_mem Prod.fst (alookup_mem h)

theorem idxAdd_lookup_self (m : Indexer) (l : Str) :
    alookup (idxAdd m l).1 l = some (idxAdd m l).2 := by
  unfold idxAdd
  cases h : alookup m l with
  | some i => simpa using h
  | none =>
    simp only
    rw [alookup_append, h]
    simp [alookup]

theorem idxAdd_extends {m : Indexer} (l : Str) {k : Str} {x : Nat}
    (h : alookup m k = some x) : alookup (idxAdd m l).1 k = some x := by
  unfold idxAdd
  cases hl : alookup m l with
  | some i => simpa using h
  | none =>
    simp only
    rw [alookup_append, h]

theorem AInv_idxAdd {m : Indexer} (h : AInv m) (l : Str) :
    AInv (idxAdd m l).1 := by
  unfold idxAdd
  cases hl : alookup m l with
  | some i => simpa using h
  | none =>
    simp only
    constructor
    · rw [List.map_append, h.1, List.length_append]
      simp [List.range_succ]
    · rw [List.map_append]
      simp only [List.map_cons, List.map_nil]
      rw [List.nodup_append]
      refine ⟨h.2, List.nodup_singleton _, ?_⟩
      intro a ha hb
      rw [List.mem_singleton] at hb
      exact (alookup_eq_none_iff m l).mp hl (hb ▸ ha)

theorem rmAdd_eq {m : Indexer} {ctr : Nat} (hctr : ctr = m.length) (k : Str) :
    rmAdd m ctr k = ((idxAdd m k).1, (idxAdd m k).1.length, (idxAdd m k).2) := by
  subst hctr
  unfold rmAdd idxAdd
  cases h : alookup m k <;> simp

/-! ## Generic lemmas: label vectors (`fillLabels`) -/

theorem fillLabels_append (acc : List Str) (xs ys : List (Str × Nat)) :
    fillLabels acc (xs ++ ys) =
      Res.bind (fillLabels acc xs) fun L => fillLabels L ys := by
  induction xs generalizing acc with
  | nil => rfl
  | cons e xs ih =>
    obtain ⟨l, i⟩ := e
    simp only [List.cons_append, fillLabels]
    by_cases hi : i < acc.length
    · simp only [if_pos hi]
      exact ih _
    · simp only [if_neg hi]
      rfl

theorem AInv_snoc {m : List (Str × Nat)} {k : Str} {i : Nat}
    (h : AInv (m ++ [(k, i)])) :
    AInv m ∧ i = m.length ∧ k ∉ m.map Prod.fst := by
  obtain ⟨hsnd, hfst⟩ := h
  rw [List.map_append, List.length_append] at hsnd
  simp only [List.map_cons, List.map_nil, List.length_cons, List.length_nil] at hsnd
  rw [List.range_succ] at hsnd
  have hlen : (m.map Prod.snd).length = (List.range m.length).length := by simp
  obtain ⟨h1, h2⟩ := List.append_inj hsnd (by simpa using hlen)
  rw [List.map_append] at hfst
  simp only [List.map_cons, List.map_nil] at hfst
  rw [List.nodup_append] at hfst
  refine ⟨⟨h1, hfst.1⟩, by simpa using h2, fun hk => ?_⟩
  exact hfst.2.2 hk (List.mem_singleton_self _)

theorem fillLabels_AInv {m : List (Str × Nat)} (h : AInv m) :
    ∀ acc : List Str, m.length ≤ acc.length →
    ∃ L, fillLabels acc m = .ok L ∧ L.length = acc.length ∧
      (∀ j, j < m.length → L.get? j = (m.get? j).map Prod.fst) ∧
      (∀ j, m.length ≤ j → L.get? j = acc.get? j) := by
  induction m using List.reverseRecOn with
  | nil =>
    intro acc _
    exact ⟨acc, rfl, rfl, fun j hj => absurd hj (by simp), fun _ _ => rfl⟩
  | append_singleton m e ih =>
    obtain ⟨k, i⟩ := e
    intro acc hlen
    obtain ⟨hm, hi, _⟩ := AInv_snoc h
    subst hi
    rw [List.length_append] at hlen
    simp only [List.length_cons, List.length_nil] at hlen
    obtain ⟨L, hL, hLlen, hLlt, hLge⟩ := ih hm acc (Nat.le_of_succ_le hlen)
    have hmlt : m.length < acc.length := Nat.lt_of_succ_le hlen
    refine ⟨L.set m.length k, ?_, by simpa [List.length_set] using hLlen, ?_, ?_⟩
    · rw [fillLabels_append, hL, Res.bind_ok, fillLabels,
        if_pos (hLlen ▸ hmlt)]
      rfl
    · intro j hj
      rw [List.length_append] at hj
      simp only [List.length_cons, List.length_nil] at hj
      by_cases hje : j = m.length
      · subst hje
        rw [List.get?_set_eq_of_lt _ (hLlen ▸ hmlt), List.get?_concat_length]
        rfl
      · have hjlt : j < m.length := by omega
        rw [List.get?_set_ne _ _ fun hh => hje hh.symm, hLlt j hjlt,
          List.get?_append (by simpa using hjlt)]
    · intro j hj
      rw [List.length_append] at hj
      simp only [List.length_cons, List.length_nil] at hj
      rw [List.get?_set_ne _ _ (by omega), hLge j (by omega)]

theorem fillLabels_AInv_labels {m : List (Str × Nat)} (h : AInv m) :
    fillLabels (List.replicate m.length ([] : Str)) m = .ok (m.map Prod.fst) := by
  obtain ⟨L, hL, hLlen, hLlt, hLge⟩ := fillLabels_AInv h
    (List.replicate m.length []) (by simp)
  rw [hL]
  congr 1
  apply List.ext
  intro j
  by_cases hj : j < m.length
  · rw [hLlt j hj, List.get?_eq_get hj,
      List.get?_eq_get (show j < (m.map Prod.fst).length by simpa using hj)]
    simp
  · rw [hLge j (Nat.le_of_not_lt hj),
      List.get?_eq_none.mpr (by simpa using Nat.le_of_not_lt hj),
      List.get?_eq_none.mpr (by simpa using Nat.le_of_not_lt hj)]

/-! ## Generic lemmas: `List.indexOf?` versus `alookup` -/

theorem indexOf?_eq_none_of_not_mem {l : List Str} {x : Str} (h : x ∉ l) :
    l.indexOf? x = none := by
  rw [List.indexOf?_eq_none_iff]
  intro a ha hax
  exact h (eq_of_beq hax ▸ ha)

theorem indexOf?_of_nodup {l : List Str} (hnd : l.Nodup) {i : Nat} {x : Str}
    (hget : l.get? i = some x) : l.indexOf? x = some i := by
  induction l generalizing i with
  | nil => exact absurd hget (by simp)
  | cons a l ih =>
    cases i with
    | zero =>
      rw [List.get?] at hget
      cases hget
      rw [List.indexOf?_cons]
      simp
    | succ i =>
      rw [List.get?] at hget
      have hmem : x ∈ l := mem_of_get? hget
      have hax : a ≠ x := fun hh => (List.nodup_cons.mp hnd).1 (hh ▸ hmem)
      rw [List.indexOf?_cons, if_neg (by simpa using hax),
        ih (List.nodup_cons.mp hnd).2 hget]
      rfl

theorem indexOf?_keys_eq_alookup {m : List (Str × Nat)} (h : AInv m) (l : Str) :
    (m.map Prod.fst).indexOf? l = alookup m l := by
  cases hl : alookup m l with
  | some i =>
    have hget : m.get? i = some (l, i) := AInv_get h (alookup_mem hl)
    exact indexOf?_of_nodup h.2 (by rw [List.get?_map, hget]; rfl)
  | none =>
    exact indexOf?_eq_none_of_not_mem ((alookup_eq_none_iff m l).mp hl)

/-! ## Structural analysis of `read_matrix` -/

/-- The `(row label, col label, value)` triple contributed by one raw
line; `none` when the line is dropped by the filter or malformed. -/
def lineTriple (ci cj cv maxCol : Nat) (line : Str) : Option (Str × Str × Q) :=
  let t := trimStr line
  if t = [] ∨ t.head? = some '#' then none
  else
    let parts := splitWs t
    if parts.length ≤ maxCol then none
    else (parseFloat (parts.getD cv [])).map fun v =>
      (parts.getD ci [], parts.getD cj [], v)

def tripleList (ci cj cv maxCol : Nat) (lines : List Str) :
    List (Str × Str × Q) :=
  lines.filterMap (lineTriple ci cj cv maxCol)

/-- The write block generated by one triple under a finished label map:
the entry itself plus, when symmetric and off-diagonal, its mirror. -/
def blockOf (sym : Bool) (mp : Indexer) (t : Str × Str × Q) :
    List (Nat × Nat × Q) :=
  let i := (alookup mp t.1).getD 0
  let j := (alookup mp t.2.1).getD 0
  if sym ∧ i ≠ j then [(i, j, t.2.2), (j, i, t.2.2)] else [(i, j, t.2.2)]

theorem tripleList_cons (ci cj cv maxCol : Nat) (line : Str) (ls : List Str) :
    tripleList ci cj cv maxCol (line :: ls) =
      match lineTriple ci cj cv maxCol line with
      | none => tripleList ci cj cv maxCol ls
      | some t => t :: tripleList ci cj cv maxCol ls := by
  rw [tripleList, List.filterMap_cons]
  cases lineTriple ci cj cv maxCol line <;> rfl

theorem readMatrixAux_ok {ci cj cv maxCol : Nat} {sym : Bool}
    {ls : List (Nat × Str)} {m : Indexer} {ctr : Nat}
    {es : List (Nat × Nat × Q)} {m' : Indexer} {ctr' : Nat}
    {es' : List (Nat × Nat × Q)}
    (hinv : AInv m) (hctr : ctr = m.length)
    (h : readMatrixAux ci cj cv maxCol sym ls m ctr es = .ok (m', ctr', es')) :
    AInv m' ∧ ctr' = m'.length ∧
    (∀ l x, alookup m l = some x → alookup m' l = some x) ∧
    (∀ t ∈ tripleList ci cj cv maxCol (ls.map Prod.snd),
      (alookup m' t.1).isSome = true ∧ (alookup m' t.2.1).isSome = true) ∧
    es' = es ++ (tripleList ci cj cv maxCol (ls.map Prod.snd)).flatMap
      (blockOf sym m') := by
  induction ls generalizing m ctr es with
  | nil =>
    rw [readMatrixAux] at h
    cases h
    exact ⟨hinv, hctr, fun l x hx => hx, by simp [tripleList],
      by simp [tripleList]⟩
  | cons p rest ih =>
    obtain ⟨ln, line⟩ := p
    rw [readMatrixAux] at h
    simp only [List.map_cons, tripleList_cons]
    by_cases hdrop : trimStr line = [] ∨ (trimStr line).head? = some '#'
    · rw [if_pos hdrop] at h
      rw [lineTriple, if_pos hdrop]
      exact ih hinv hctr h
    · rw [if_neg hdrop] at h
      rw [lineTriple, if_neg hdrop]
      by_cases hshort : (splitWs (trimStr line)).length ≤ maxCol
      · rw [if_pos hshort] at h
        exact absurd h (by simp)
      · rw [if_neg hshort] at h
        rw [if_neg hshort]
        cases hparse : parseFloat ((splitWs (trimStr line)).getD cv []) with
        | none =>
          rw [hparse] at h
          exact absurd h (by simp)
        | some v =>
          rw [hparse] at h
          dsimp only at h
          rw [rmAdd_eq hctr] at h
          dsimp only at h
          rw [rmAdd_eq rfl] at h
          dsimp only at h
          set keyI := (splitWs (trimStr line)).getD ci [] with hkeyI
          set keyJ := (splitWs (trimStr line)).getD cj [] with hkeyJ
          set m1 := (idxAdd m keyI).1 with hm1
          set i := (idxAdd m keyI).2 with hi
          set m2 := (idxAdd m1 keyJ).1 with hm2
          set j := (idxAdd m1 keyJ).2 with hj
          have hinv1 : AInv m1 := AInv_idxAdd hinv keyI
          have hinv2 : AInv m2 := AInv_idxAdd hinv1 keyJ
          obtain ⟨hinv', hctr', hext, hall, hes⟩ := ih hinv2 rfl h
          have hlkI : alookup m' keyI = some i :=
            hext _ _ (idxAdd_extends keyJ (idxAdd_lookup_self m keyI))
          have hlkJ : alookup m' keyJ = some j :=
            hext _ _ (idxAdd_lookup_self m1 keyJ)
          simp only [Option.map_some']
          refine ⟨hinv', hctr', ?_, ?_, ?_⟩
          · intro l x hx
            exact hext l x (idxAdd_extends keyJ (idxAdd_extends keyI hx))
          · intro t ht
            rw [List.mem_cons] at ht
            rcases ht with rfl | ht
            · exact ⟨by simp [hlkI], by simp [hlkJ]⟩
            · exact hall t ht
          · rw [hes, List.append_assoc]
            congr 1
            rw [List.flatMap_cons]
            congr 1
            simp only [blockOf, hlkI, hlkJ, Option.getD_some]


/-- The value of the last triple mentioning the unordered label pair
`{a, b}` (later lines take precedence). -/
def lastPairVal : List (Str × Str × Q) → Str → Str → Option Q
  | [], _, _ => none
  | (x, y, v) :: ts, a, b =>
    match lastPairVal ts a b with
    | some w => some w
    | none => if (x = a ∧ y = b) ∨ (x = b ∧ y = a) then some v else none

theorem lastPairVal_comm (ts : List (Str × Str × Q)) (a b : Str) :
    lastPairVal ts a b = lastPairVal ts b a := by
  induction ts with
  | nil => rfl
  | cons t ts ih =>
    obtain ⟨x, y, v⟩ := t
    rw [lastPairVal, lastPairVal, ih]
    cases lastPairVal ts b a with
    | some w => rfl
    | none =>
      simp only
      by_cases h : (x = a ∧ y = b) ∨ (x = b ∧ y = a)
      · rw [if_pos h, if_pos h.symm]
      · rw [if_neg h, if_neg fun hh => h hh.symm]

theorem lastVal_some_mem {es : List (Nat × Nat × Q)} {i j : Nat} {w : Q}
    (h : lastVal es i j = some w) : (i, j, w) ∈ es := by
  induction es with
  | nil => exact absurd h (by simp [lastVal])
  | cons e es ih =>
    obtain ⟨a, b, v⟩ := e
    rw [lastVal] at h
    cases hl : lastVal es i j with
    | some u =>
      rw [hl] at h
      cases h
      exact List.mem_cons_of_mem _ (ih hl)
    | none =>
      rw [hl] at h
      simp only at h
      split at h
      next hc =>
        cases h
        obtain ⟨rfl, rfl⟩ := hc
        exact List.mem_cons_self _ _
      next => exact absurd h (by simp)

theorem blockOf_coords_lt {sym : Bool} {mp : Indexer}
    {ts : List (Str × Str × Q)}
    (hall : ∀ t ∈ ts, (alookup mp t.1).isSome = true ∧
      (alookup mp t.2.1).isSome = true)
    (hinv : AInv mp) :
    ∀ e ∈ ts.flatMap (blockOf sym mp), e.1 < mp.length ∧ e.2.1 < mp.length := by
  intro e he
  rw [List.mem_flatMap] at he
  obtain ⟨t, ht, hblock⟩ := he
  obtain ⟨hx, hy⟩ := hall t ht
  obtain ⟨ix, hix⟩ := Option.isSome_iff_exists.mp hx
  obtain ⟨iy, hiy⟩ := Option.isSome_iff_exists.mp hy
  have hixlt := alookup_lt hinv hix
  have hiylt := alookup_lt hinv hiy
  rw [blockOf] at hblock
  simp only [hix, hiy, Option.getD_some] at hblock
  split at hblock <;> simp only [List.mem_cons, List.mem_singleton] at hblock
  · rcases hblock with rfl | rfl | hf
    · exact ⟨hixlt, hiylt⟩
    · exact ⟨hiylt, hixlt⟩
    · exact absurd hf (by simp)
  · rcases hblock with rfl | hf
    · exact ⟨hixlt, hiylt⟩
    · exact absurd hf (by simp)

theorem lastVal_flatMap_blockOf {mp : Indexer} (hinv : AInv mp)
    {ts : List (Str × Str × Q)}
    (hall : ∀ t ∈ ts, (alookup mp t.1).isSome = true ∧
      (alookup mp t.2.1).isSome = true)
    {a b : Str} {ia ib : Nat}
    (ha : alookup mp a = some ia) (hb : alookup mp b = some ib) :
    lastVal (ts.flatMap (blockOf true mp)) ia ib = lastPairVal ts a b := by
  induction ts with
  | nil => rfl
  | cons t ts ih =>
    obtain ⟨x, y, v⟩ := t
    obtain ⟨hx, hy⟩ := hall _ (List.mem_cons_self _ _)
    obtain ⟨ix, hix⟩ := Option.isSome_iff_exists.mp hx
    obtain ⟨iy, hiy⟩ := Option.isSome_iff_exists.mp hy
    rw [List.flatMap_cons, lastVal_append, lastPairVal,
      ih fun t ht => hall t (List.mem_cons_of_mem _ ht)]
    cases lastPairVal ts a b with
    | some w => rfl
    | none =>
      simp only [blockOf, hix, hiy, Option.getD_some]
      have hxa : ix = ia ↔ x = a :=
        ⟨fun hh => alookup_inj hinv hix (hh ▸ ha), fun hh => by
          rw [hh] at hix; exact Option.some.inj (hix.symm.trans ha)⟩
      have hxb : ix = ib ↔ x = b :=
        ⟨fun hh => alookup_inj hinv hix (hh ▸ hb), fun hh => by
          rw [hh] at hix; exact Option.some.inj (hix.symm.trans hb)⟩
      have hya : iy = ia ↔ y = a :=
        ⟨fun hh => alookup_inj hinv hiy (hh ▸ ha), fun hh => by
          rw [hh] at hiy; exact Option.some.inj (hiy.symm.trans ha)⟩
      have hyb : iy = ib ↔ y = b :=
        ⟨fun hh => alookup_inj hinv hiy (hh ▸ hb), fun hh => by
          rw [hh] at hiy; exact Option.some.inj (hiy.symm.trans hb)⟩
      by_cases hxy : ix = iy
      · have hlab : x = y := alookup_inj hinv hix (hxy ▸ hiy)
        rw [if_neg (by simp [hxy])]
        simp only [lastVal]
        by_cases hc : ix = ia ∧ iy = ib
        · rw [if_pos hc, if_pos (Or.inl ⟨hxa.mp hc.1, hyb.mp hc.2⟩)]
        · rw [if_neg hc, if_neg ?_]
          rintro (⟨h1, h2⟩ | ⟨h1, h2⟩)
          · exact hc ⟨hxa.mpr h1, hyb.mpr h2⟩
          · exact hc ⟨hxa.mpr (hlab.trans h2), hyb.mpr (hlab.symm.trans h1)⟩
      · rw [if_pos (by simp [hxy])]
        simp only [lastVal]
        by_cases hc2 : iy = ia ∧ ix = ib
        · rw [if_pos hc2, if_pos (Or.inr ⟨hxb.mp hc2.2, hya.mp hc2.1⟩)]
        · rw [if_neg hc2]
          by_cases hc1 : ix = ia ∧ iy = ib
          · rw [if_pos hc1, if_pos (Or.inl ⟨hxa.mp hc1.1, hyb.mp hc1.2⟩)]
          · rw [if_neg hc1, if_neg ?_]
            rintro (⟨h1, h2⟩ | ⟨h1, h2⟩)
            · exact hc1 ⟨hxa.mpr h1, hyb.mpr h2⟩
            · exact hc2 ⟨hya.mpr h2, hxb.mpr h1⟩

theorem Paired_flatMap_blockOf (mp : Indexer) (ts : List (Str × Str × Q)) :
    Paired (ts.flatMap (blockOf true mp)) := by
  induction ts with
  | nil => exact Paired.nil
  | cons t ts ih =>
    rw [List.flatMap_cons]
    refine Paired.append ?_ ih
    obtain ⟨x, y, v⟩ := t
    simp only [blockOf]
    by_cases hxy : (alookup mp x).getD 0 = (alookup mp y).getD 0
    · rw [if_neg (by simp [hxy])]
      exact hxy ▸ Paired.diag _ v Paired.nil
    · rw [if_pos (by simp [hxy])]
      exact Paired.pair _ _ v Paired.nil

theorem dmNew_ok {data : List (List Q)} {rl cl : List Str} {mtx : DataMatrix}
    (h : dmNew data rl cl = .ok mtx) :
    mtx.data = data ∧ mtx.row_labels = rl ∧ mtx.col_labels = cl ∧
    data.length = rl.length ∧
    ∃ d0 rest, data = d0 :: rest ∧ d0.length = cl.length := by
  unfold dmNew at h
  split at h
  · exact absurd h (by simp)
  next hlen =>
    split at h
    · exact absurd h (by simp)
    next d0 rest =>
      split at h
      · exact absurd h (by simp)
      next hcol =>
        cases h
        exact ⟨rfl, rfl, rfl, Classical.not_not.mp hlen, d0, rest, rfl,
          Classical.not_not.mp hcol⟩

theorem dmNew_total {data : List (List Q)} {rl cl : List Str}
    {d0 : List Q} {rest : List (List Q)}
    (hd : data = d0 :: rest) (h1 : data.length = rl.length)
    (h2 : d0.length = cl.length) :
    dmNew data rl cl = .ok ⟨data, rl, cl⟩ := by
  subst hd
  unfold dmNew
  rw [if_neg (Classical.not_not.mpr h1)]
  simp only [if_neg (Classical.not_not.mpr h2)]

theorem readMatrix_ok_struct {lines : List Str} {ci cj cv : Nat} {sym : Bool}
    {mtx : DataMatrix}
    (h : readMatrix lines ci cj cv sym = .ok mtx) :
    ∃ mp : Indexer, AInv mp ∧
      mtx.row_labels = mp.map Prod.fst ∧
      mtx.col_labels = mp.map Prod.fst ∧
      (∀ t ∈ tripleList ci cj cv (max (max ci cj) cv) lines,
        (alookup mp t.1).isSome = true ∧ (alookup mp t.2.1).isSome = true) ∧
      (∀ i j, cellGet mtx.data i j =
        if i < mp.length ∧ j < mp.length then
          match lastVal ((tripleList ci cj cv (max (max ci cj) cv) lines).flatMap
              (blockOf sym mp)) i j with
          | some w => some w
          | none => some 0
        else none) := by
  unfold readMatrix at h
  dsimp only at h
  cases haux : readMatrixAux ci cj cv (max (max ci cj) cv) sym (enumLines lines) [] 0 [] with
  | err e => rw [haux] at h; exact absurd h (by simp)
  | panicked => rw [haux] at h; exact absurd h (by simp)
  | ok st =>
    rw [haux] at h
    obtain ⟨mp, ctr', es'⟩ := st
    rw [Res.bind_ok] at h
    have hsnd : (enumLines lines).map Prod.snd = lines := by
      rw [enumLines, List.enum_map_snd]
    obtain ⟨hinv, hctr, -, hall, hes⟩ := readMatrixAux_ok AInv_nil rfl haux
    rw [hsnd] at hall hes
    rw [List.nil_append] at hes
    subst hes
    subst hctr
    cases hw : writeEntries (zerosGrid mp.length mp.length)
        ((tripleList ci cj cv (max (max ci cj) cv) lines).flatMap (blockOf sym mp)) with
    | err e => rw [hw] at h; exact absurd h (by simp)
    | panicked => rw [hw] at h; exact absurd h (by simp)
    | ok data =>
      rw [hw, Res.bind_ok] at h
      rw [fillLabels_AInv_labels hinv, Res.bind_ok] at h
      obtain ⟨hdata, hrl, hcl, -, -⟩ := dmNew_ok h
      obtain ⟨-, -, hcell⟩ := writeEntries_ok hw
      refine ⟨mp, hinv, by rw [hrl], by rw [hcl], hall, ?_⟩
      intro i j
      rw [hdata, hcell i j]
      cases hl : lastVal ((tripleList ci cj cv (max (max ci cj) cv) lines).flatMap
          (blockOf sym mp)) i j with
      | some w =>
        have hmem := lastVal_some_mem hl
        have hlt := blockOf_coords_lt hall hinv _ hmem
        rw [if_pos hlt]
      | none =>
        rw [cellGet_zerosGrid]

/-! ## Structural analysis of `from_file` (triplet mode) -/

/-- The triple contributed by one tokenized line in `from_file`'s
triplet mode, `none` when the line is too short or its value token does
not parse. -/
def ffTriple (rlc clc dc : Nat) (p : List Str) : Option (Str × Str × Q) :=
  match p.get? rlc, p.get? clc with
  | some rl, some cl => (parseFloat (p.getD dc [])).map fun v => (rl, cl, v)
  | _, _ => none

/-- All triples of a `from_file` triplet build. -/
def ffTriples (b : Builder) (path : Str) (lines : List Str) :
    List (Str × Str × Q) :=
  (parsePlain (ffSep b path) b.skip_header lines).filterMap
    (ffTriple b.row_label_col b.col_label_col b.data_col)

/-- The write block of one `from_file` line: the entry plus, when
symmetric, its unconditional mirror. -/
def blockFF (sym : Bool) (rI cI : Indexer) (t : Str × Str × Q) :
    List (Nat × Nat × Q) :=
  let i := (alookup rI t.1).getD 0
  let j := (alookup cI t.2.1).getD 0
  if sym then [(i, j, t.2.2), (j, i, t.2.2)] else [(i, j, t.2.2)]

theorem getD_of_get? {p : List Str} {dc : Nat} {tok : Str}
    (h : p.get? dc = some tok) : p.getD dc [] = tok := by
  rw [List.getD_eq_getElem?_getD, ← List.get?_eq_getElem?, h]
  rfl

theorem idxIndex_some {m : Indexer} {l : Str} {i : Nat}
    (h : alookup m l = some i) : idxIndex m l = .ok i := by
  unfold idxIndex
  rw [h]

theorem idxIndex_none {m : Indexer} {l : Str}
    (h : alookup m l = none) : idxIndex m l = .panicked := by
  unfold idxIndex
  rw [h]

theorem ffPass1Auto_ok {rlc clc : Nat} {ps : List (List Str)}
    {r c r' c' : Indexer} (hinv : AInv r)
    (h : ffPass1Auto rlc clc true ps r c = .ok (r', c')) :
    AInv r' ∧ c' = c ∧
    (∀ l x, alookup r l = some x → alookup r' l = some x) ∧
    (∀ p ∈ ps, ∃ rowLab colLab, p.get? rlc = some rowLab ∧
      p.get? clc = some colLab ∧
      (alookup r' rowLab).isSome = true ∧ (alookup r' colLab).isSome = true) := by
  induction ps generalizing r c with
  | nil =>
    rw [ffPass1Auto] at h
    cases h
    exact ⟨hinv, rfl, fun l x hx => hx, by simp⟩
  | cons p ps ih =>
    rw [ffPass1Auto] at h
    cases hrl : p.get? rlc with
    | none => rw [hrl] at h; exact absurd h (by simp)
    | some rowLab =>
      rw [hrl] at h
      cases hcl : p.get? clc with
      | none => rw [hcl] at h; exact absurd h (by simp)
      | some colLab =>
        rw [hcl] at h
        simp only [if_pos rfl] at h
        have hinv1 : AInv (idxAdd r rowLab).1 := AInv_idxAdd hinv rowLab
        have hinv2 : AInv (idxAdd (idxAdd r rowLab).1 colLab).1 :=
          AInv_idxAdd hinv1 colLab
        obtain ⟨hinv', hc', hext, hall⟩ := ih hinv2 h
        have hlkR : (alookup r' rowLab).isSome = true := by
          rw [hext _ _ (idxAdd_extends colLab (idxAdd_lookup_self r rowLab))]
          rfl
        have hlkC : (alookup r' colLab).isSome = true := by
          rw [hext _ _ (idxAdd_lookup_self (idxAdd r rowLab).1 colLab)]
          rfl
        refine ⟨hinv', hc', ?_, ?_⟩
        · intro l x hx
          exact hext l x (idxAdd_extends colLab (idxAdd_extends rowLab hx))
        · intro q hq
          rcases List.mem_cons.mp hq with rfl | hq
          · exact ⟨rowLab, colLab, hrl, hcl, hlkR, hlkC⟩
          · exact hall q hq

theorem ffFill_ok {rlc clc dc : Nat} {sym : Bool} {rI cI : Indexer}
    {ps : List (Nat × List Str)} {g g' : List (List Q)}
    (h : ffFill rlc clc dc sym rI cI ps g = .ok g') :
    writeEntries g (((ps.map Prod.snd).filterMap
      (ffTriple rlc clc dc)).flatMap (blockFF sym rI cI)) = .ok g' := by
  induction ps generalizing g with
  | nil =>
    rw [ffFill] at h
    cases h
    rfl
  | cons q ps ih =>
    obtain ⟨ln, p⟩ := q
    rw [ffFill] at h
    cases hrl : p.get? rlc with
    | none => rw [hrl] at h; exact absurd h (by simp)
    | some rowLab =>
      rw [hrl] at h
      cases hcl : p.get? clc with
      | none => rw [hcl] at h; exact absurd h (by simp)
      | some colLab =>
        rw [hcl] at h
        dsimp only at h
        cases hiR : alookup rI rowLab with
        | none => rw [idxIndex_none hiR] at h; exact absurd h (by simp)
        | some iRow =>
          rw [idxIndex_some hiR, Res.bind_ok] at h
          cases hjC : alookup cI colLab with
          | none => rw [idxIndex_none hjC] at h; exact absurd h (by simp)
          | some jCol =>
            rw [idxIndex_some hjC, Res.bind_ok] at h
            cases hdc : p.get? dc with
            | none => rw [hdc] at h; exact absurd h (by simp)
            | some tok =>
              rw [hdc] at h
              dsimp only at h
              cases hv : parseFloat tok with
              | none => rw [hv] at h; exact absurd h (by simp)
              | some v =>
                rw [hv] at h
                dsimp only at h
                have htr : ffTriple rlc clc dc p = some (rowLab, colLab, v) := by
                  rw [ffTriple, hrl, hcl, getD_of_get? hdc, hv]
                  rfl
                rw [List.map_cons, List.filterMap_cons, htr, List.flatMap_cons]
                simp only [blockFF, hiR, hjC, Option.getD_some]
                cases hw1 : writeCell g iRow jCol v with
                | err e => rw [hw1] at h; exact absurd h (by simp)
                | panicked => rw [hw1] at h; exact absurd h (by simp)
                | ok g1 =>
                  rw [hw1, Res.bind_ok] at h
                  cases hsymb : sym with
                  | false =>
                    subst hsymb
                    rw [if_neg Bool.false_ne_true] at h
                    rw [if_neg Bool.false_ne_true, List.cons_append,
                      List.nil_append, writeEntries, hw1, Res.bind_ok]
                    exact ih h
                  | true =>
                    subst hsymb
                    rw [if_pos rfl] at h
                    cases hw2 : writeCell g1 jCol iRow v with
                    | err e => rw [hw2] at h; exact absurd h (by simp)
                    | panicked => rw [hw2] at h; exact absurd h (by simp)
                    | ok g2 =>
                      rw [hw2, Res.bind_ok] at h
                      rw [if_pos rfl, List.cons_append, List.cons_append,
                        List.nil_append, writeEntries, hw1, Res.bind_ok,
                        writeEntries, hw2, Res.bind_ok]
                      exact ih h

theorem lastVal_flatMap_congr {α : Type} {f g : α → List (Nat × Nat × Q)}
    {ts : List α}
    (hfg : ∀ t ∈ ts, ∀ i j, lastVal (f t) i j = lastVal (g t) i j)
    (i j : Nat) :
    lastVal (ts.flatMap f) i j = lastVal (ts.flatMap g) i j := by
  induction ts with
  | nil => rfl
  | cons t ts ih =>
    rw [List.flatMap_cons, List.flatMap_cons, lastVal_append, lastVal_append,
      ih fun t ht => hfg t (List.mem_cons_of_mem _ ht),
      hfg t (List.mem_cons_self _ _) i j]

theorem lastVal_blockFF_eq_blockOf (mp : Indexer) (t : Str × Str × Q)
    (i j : Nat) :
    lastVal (blockFF true mp mp t) i j = lastVal (blockOf true mp t) i j := by
  obtain ⟨x, y, v⟩ := t
  simp only [blockFF, blockOf, if_true, true_and]
  by_cases hxy : (alookup mp x).getD 0 = (alookup mp y).getD 0
  · rw [if_neg (by simpa using hxy), hxy]
    by_cases hc : (alookup mp y).getD 0 = i ∧ (alookup mp y).getD 0 = j
    · obtain ⟨rfl, rfl⟩ := hc
      simp [lastVal]
    · simp [lastVal, hc]
  · rw [if_pos hxy]

theorem Paired_flatMap_blockFF (mp : Indexer) (ts : List (Str × Str × Q)) :
    Paired (ts.flatMap (blockFF true mp mp)) := by
  induction ts with
  | nil => exact Paired.nil
  | cons t ts ih =>
    rw [List.flatMap_cons]
    refine Paired.append ?_ ih
    obtain ⟨x, y, v⟩ := t
    simp only [blockFF, if_true]
    exact Paired.pair _ _ v Paired.nil

theorem lastPairVal_some_mem {ts : List (Str × Str × Q)} {a b : Str} {v : Q}
    (h : lastPairVal ts a b = some v) :
    ∃ x y, ((x = a ∧ y = b) ∨ (x = b ∧ y = a)) ∧ (x, y, v) ∈ ts := by
  induction ts with
  | nil => exact absurd h (by simp [lastPairVal])
  | cons t ts ih =>
    obtain ⟨x, y, w⟩ := t
    rw [lastPairVal] at h
    cases hl : lastPairVal ts a b with
    | some u =>
      rw [hl] at h
      cases h
      obtain ⟨x', y', hc, hm⟩ := ih hl
      exact ⟨x', y', hc, List.mem_cons_of_mem _ hm⟩
    | none =>
      rw [hl] at h
      simp only at h
      split at h
      next hc =>
        cases h
        exact ⟨x, y, hc, List.mem_cons_self _ _⟩
      next => exact absurd h (by simp)

/-! ## Shared derivation of the symmetric-build properties -/

theorem struct_parts {mtx : DataMatrix} {mp : Indexer}
    {ts : List (Str × Str × Q)}
    (hinv : AInv mp)
    (hrl : mtx.row_labels = mp.map Prod.fst)
    (hcl : mtx.col_labels = mp.map Prod.fst)
    (hall : ∀ t ∈ ts, (alookup mp t.1).isSome = true ∧
      (alookup mp t.2.1).isSome = true)
    (hcell : ∀ i j, cellGet mtx.data i j =
      if i < mp.length ∧ j < mp.length then
        match lastVal (ts.flatMap (blockOf true mp)) i j with
        | some w => some w
        | none => some 0
      else none) :
    (∀ i j, mtx.get i j = mtx.get j i) ∧
    (∀ a b v, lastPairVal ts a b = some v →
      mtx.getByLabel a b = some v ∧ mtx.getByLabel b a = some v) ∧
    (∀ a b, a ∈ mtx.row_labels → b ∈ mtx.row_labels →
      lastPairVal ts a b = none → mtx.getByLabel a b = some 0) := by
  have hgbl : ∀ a b, mtx.getByLabel a b =
      match alookup mp a, alookup mp b with
      | some i, some j => cellGet mtx.data i j
      | _, _ => none := by
    intro a b
    rw [DataMatrix.getByLabel, hrl, hcl, indexOf?_keys_eq_alookup hinv,
      indexOf?_keys_eq_alookup hinv]
    cases alookup mp a <;> cases alookup mp b <;> rfl
  have hpaired := Paired_flatMap_blockOf mp ts
  refine ⟨?_, ?_, ?_⟩
  · intro i j
    rw [DataMatrix.get, DataMatrix.get, hcell i j, hcell j i,
      lastVal_symm hpaired i j]
    by_cases hin : i < mp.length ∧ j < mp.length
    · rw [if_pos hin, if_pos ⟨hin.2, hin.1⟩]
    · rw [if_neg hin, if_neg fun hh => hin ⟨hh.2, hh.1⟩]
  · intro a b v hv
    obtain ⟨x, y, hc, hm⟩ := lastPairVal_some_mem hv
    obtain ⟨hx, hy⟩ := hall _ hm
    have hab : (alookup mp a).isSome = true ∧ (alookup mp b).isSome = true := by
      rcases hc with ⟨rfl, rfl⟩ | ⟨rfl, rfl⟩
      · exact ⟨hx, hy⟩
      · exact ⟨hy, hx⟩
    obtain ⟨ia, hia⟩ := Option.isSome_iff_exists.mp hab.1
    obtain ⟨ib, hib⟩ := Option.isSome_iff_exists.mp hab.2
    have hlt_a := alookup_lt hinv hia
    have hlt_b := alookup_lt hinv hib
    constructor
    · rw [hgbl a b, hia, hib]
      simp only
      rw [hcell ia ib, if_pos ⟨hlt_a, hlt_b⟩,
        lastVal_flatMap_blockOf hinv hall hia hib, hv]
    · rw [hgbl b a, hia, hib]
      simp only
      rw [hcell ib ia, if_pos ⟨hlt_b, hlt_a⟩,
        lastVal_flatMap_blockOf hinv hall hib hia, lastPairVal_comm, hv]
  · intro a b hma hmb hnone
    rw [hrl, mem_keys_iff_alookup] at hma hmb
    obtain ⟨ia, hia⟩ := Option.isSome_iff_exists.mp hma
    obtain ⟨ib, hib⟩ := Option.isSome_iff_exists.mp hmb
    rw [hgbl a b, hia, hib]
    simp only
    rw [hcell ia ib, if_pos ⟨alookup_lt hinv hia, alookup_lt hinv hib⟩,
      lastVal_flatMap_blockOf hinv hall hia hib, hnone]

theorem idxToVec_AInv {m : Indexer} (h : AInv m) :
    idxToVec m = .ok (m.map Prod.fst) := by
  unfold idxToVec
  exact fillLabels_AInv_labels h

/-! ## `from_file` (triplet, symmetric): bundled characterization -/

theorem fromFile_ok_struct {b : Builder} {path : Str} {lines : List Str}
    {mtx : DataMatrix}
    (hlab : b.labels = none) (hidx : b.row_idx_col = none)
    (hsym : b.symmetric = true)
    (h : fromFile b path lines = .ok mtx) :
    ∃ mp : Indexer, AInv mp ∧
      mtx.row_labels = mp.map Prod.fst ∧
      mtx.col_labels = mp.map Prod.fst ∧
      (∀ t ∈ ffTriples b path lines,
        (alookup mp t.1).isSome = true ∧ (alookup mp t.2.1).isSome = true) ∧
      (∀ i j, cellGet mtx.data i j =
        if i < mp.length ∧ j < mp.length then
          match lastVal ((ffTriples b path lines).flatMap (blockOf true mp)) i j with
          | some w => some w
          | none => some 0
        else none) := by
  unfold fromFile at h
  rw [hlab] at h
  dsimp only at h
  rw [hidx] at h
  dsimp only at h
  rw [hsym] at h
  cases hp : ffPass1Auto b.row_label_col b.col_label_col true
      (parsePlain (ffSep b path) b.skip_header lines) [] [] with
  | err e => rw [hp] at h; exact absurd h (by simp)
  | panicked => rw [hp] at h; exact absurd h (by simp)
  | ok idxrs =>
    rw [hp, Res.bind_ok] at h
    obtain ⟨rI, cI⟩ := idxrs
    dsimp only at h
    rw [if_pos rfl] at h
    obtain ⟨hinv, -, -, hall1⟩ := ffPass1Auto_ok AInv_nil hp
    rw [idxToVec_AInv hinv, Res.bind_ok, Res.bind_ok] at h
    cases hfill : ffFill b.row_label_col b.col_label_col b.data_col true rI rI
        (parsePlain (ffSep b path) b.skip_header lines).enum
        (zerosGrid (idxMaxIndex rI) (idxMaxIndex rI)) with
    | err e => rw [hfill] at h; exact absurd h (by simp)
    | panicked => rw [hfill] at h; exact absurd h (by simp)
    | ok data =>
      rw [hfill, Res.bind_ok] at h
      obtain ⟨hdata, hrl, hcl, -, -⟩ := dmNew_ok h
      have hwe := ffFill_ok hfill
      rw [List.enum_map_snd] at hwe
      have hwe' : writeEntries (zerosGrid rI.length rI.length)
          ((ffTriples b path lines).flatMap (blockFF true rI rI)) = .ok data := hwe
      have hall : ∀ t ∈ ffTriples b path lines,
          (alookup rI t.1).isSome = true ∧ (alookup rI t.2.1).isSome = true := by
        intro t ht
        rw [ffTriples] at ht
        obtain ⟨p, hp', htr⟩ := List.mem_filterMap.mp ht
        obtain ⟨rowLab, colLab, hgr, hgc, hr, hc⟩ := hall1 p hp'
        rw [ffTriple, hgr, hgc] at htr
        cases hv : parseFloat (p.getD b.data_col []) with
        | none => rw [hv] at htr; exact absurd htr (by simp)
        | some v =>
          rw [hv] at htr
          simp only [Option.map_some'] at htr
          cases htr
          exact ⟨hr, hc⟩
      obtain ⟨-, -, hcell⟩ := writeEntries_ok hwe'
      refine ⟨rI, hinv, by rw [hrl], by rw [hcl], hall, ?_⟩
      intro i j
      rw [hdata, hcell i j,
        lastVal_flatMap_congr (fun t _ a c => lastVal_blockFF_eq_blockOf rI t a c) i j]
      cases hl : lastVal ((ffTriples b path lines).flatMap (blockOf true rI)) i j with
      | some w =>
        have hmem := lastVal_some_mem hl
        have hlt := blockOf_coords_lt hall hinv _ hmem
        rw [if_pos hlt]
      | none => rw [cellGet_zerosGrid]

/-! ## Claim C4 -/

/-- C4: after any triplet-format build with `symmetric` set to true
(`read_matrix`, or `DataMatrixBuilder::from_file` in triplet mode), the
matrix is symmetric (`get i j = get j i` everywhere, hence
`get_by_label a b = get_by_label b a`); for every label pair appearing
together on a parsed line, `get_by_label` returns exactly the parsed
value of the last such line, with no arithmetic transformation; every
entry whose label pair is never written is exactly `0.0`; and in
particular the two-line input `"Alice Bob 1.2"`, `"Bob John 2.4"` yields
a 3×3 matrix with `get_by_label("Alice","Bob") =
get_by_label("Bob","Alice") = 1.2` and `get_by_label("Alice","John") = 0.0`. -/
theorem claim_C4 :
    (∀ (lines : List Str) (ci cj cv : Nat) (mtx : DataMatrix),
      readMatrix lines ci cj cv true = .ok mtx →
      (∀ i j, mtx.get i j = mtx.get j i) ∧
      (∀ a b v,
        lastPairVal (tripleList ci cj cv (max (max ci cj) cv) lines) a b = some v →
        mtx.getByLabel a b = some v ∧ mtx.getByLabel b a = some v) ∧
      (∀ a b, a ∈ mtx.row_labels → b ∈ mtx.row_labels →
        lastPairVal (tripleList ci cj cv (max (max ci cj) cv) lines) a b = none →
        mtx.getByLabel a b = some 0)) ∧
    (∀ (b : Builder) (path : Str) (lines : List Str) (mtx : DataMatrix),
      b.labels = none → b.row_idx_col = none → b.symmetric = true →
      fromFile b path lines = .ok mtx →
      (∀ i j, mtx.get i j = mtx.get j i) ∧
      (∀ a c v, lastPairVal (ffTriples b path lines) a c = some v →
        mtx.getByLabel a c = some v ∧ mtx.getByLabel c a = some v) ∧
      (∀ a c, a ∈ mtx.row_labels → c ∈ mtx.row_labels →
        lastPairVal (ffTriples b path lines) a c = none →
        mtx.getByLabel a c = some 0)) ∧
    (∃ mtx : DataMatrix,
      readMatrix ["Alice Bob 1.2".data, "Bob John 2.4".data] 0 1 2 true = .ok mtx ∧
      fromFile (Builder.new.withSymmetric true) "test.txt".data
        ["Alice Bob 1.2".data, "Bob John 2.4".data] = .ok mtx ∧
      mtx.nrows = 3 ∧ mtx.ncols = 3 ∧
      parseFloat "1.2".data = some ⟨12, 10⟩ ∧
      mtx.getByLabel "Alice".data "Bob".data = some ⟨12, 10⟩ ∧
      mtx.getByLabel "Bob".data "Alice".data = some ⟨12, 10⟩ ∧
      mtx.getByLabel "Alice".data "John".data = some 0) := by
  refine ⟨?_, ?_, ?_⟩
  · intro lines ci cj cv mtx h
    obtain ⟨mp, hinv, hrl, hcl, hall, hcell⟩ := readMatrix_ok_struct h
    exact struct_parts hinv hrl hcl hall hcell
  · intro b path lines mtx hlab hidx hsym h
    obtain ⟨mp, hinv, hrl, hcl, hall, hcell⟩ := fromFile_ok_struct hlab hidx hsym h
    exact struct_parts hinv hrl hcl hall hcell
  · refine ⟨⟨[[0, ⟨12, 10⟩, 0], [⟨12, 10⟩, 0, ⟨24, 10⟩], [0, ⟨24, 10⟩, 0]],
      ["Alice".data, "Bob".data, "John".data],
      ["Alice".data, "Bob".data, "John".data]⟩,
      by decide, by decide, by decide, by decide, by decide, by decide,
      by decide, by decide⟩

/-- Witness for C4: the general theorem applied to the concrete
two-line scenario. -/
theorem claim_C4_witness :
    ∃ mtx : DataMatrix,
      readMatrix ["Alice Bob 1.2".data, "Bob John 2.4".data] 0 1 2 true = .ok mtx ∧
      mtx.getByLabel "Alice".data "Bob".data = some ⟨12, 10⟩ ∧
      mtx.getByLabel "Bob".data "Alice".data = some ⟨12, 10⟩ := by
  refine ⟨⟨[[0, ⟨12, 10⟩, 0], [⟨12, 10⟩, 0, ⟨24, 10⟩], [0, ⟨24, 10⟩, 0]],
    ["Alice".data, "Bob".data, "John".data],
    ["Alice".data, "Bob".data, "John".data]⟩, by decide, ?_, ?_⟩
  all_goals
    obtain ⟨hab, hba⟩ :=
      (claim_C4.1 ["Alice Bob 1.2".data, "Bob John 2.4".data] 0 1 2
        ⟨[[0, ⟨12, 10⟩, 0], [⟨12, 10⟩, 0, ⟨24, 10⟩], [0, ⟨24, 10⟩, 0]],
          ["Alice".data, "Bob".data, "John".data],
          ["Alice".data, "Bob".data, "John".data]⟩
        (by decide)).2.1 "Alice".data "Bob".data ⟨12, 10⟩ (by decide)
  · exact hab
  · exact hba

/-! ## Claim C10 -/

theorem indexOf?_spec {l : List Str} {x : Str} (h : x ∈ l) :
    ∃ i, l.indexOf? x = some i ∧ l.get? i = some x ∧
      ∀ k < i, l.get? k ≠ some x := by
  induction l with
  | nil => exact absurd h (by simp)
  | cons a l ih =>
    by_cases hax : a = x
    · subst hax
      exact ⟨0, by rw [List.indexOf?_cons]; simp, rfl, fun k hk => absurd hk (by omega)⟩
    · have hm : x ∈ l := List.mem_of_ne_of_mem (fun hh => hax hh.symm) h
      obtain ⟨i, h1, h2, h3⟩ := ih hm
      refine ⟨i + 1, ?_, h2, ?_⟩
      · rw [List.indexOf?_cons, if_neg (by simpa using hax), h1]
        rfl
      · intro k hk
        cases k with
        | zero => simpa using hax
        | succ k => exact h3 k (Nat.lt_of_succ_lt_succ hk)

/-- C10: `DataMatrix::get` is total — it returns the stored value when
row `i` exists and position `j` exists within that row, and `None`
otherwise, never panicking; `get_by_label` returns `None` whenever
either label is absent from the corresponding label list, and otherwise
resolves each label to its first matching position. -/
theorem claim_C10 :
    (∀ (mtx : DataMatrix) (i j : Nat) (row : List Q) (v : Q),
      mtx.data.get? i = some row → row.get? j = some v →
      mtx.get i j = some v) ∧
    (∀ (mtx : DataMatrix) (i j : Nat), mtx.nrows ≤ i → mtx.get i j = none) ∧
    (∀ (mtx : DataMatrix) (i j : Nat) (row : List Q),
      mtx.data.get? i = some row → row.length ≤ j → mtx.get i j = none) ∧
    (∀ (mtx : DataMatrix) (r c : Str),
      r ∉ mtx.row_labels ∨ c ∉ mtx.col_labels → mtx.getByLabel r c = none) ∧
    (∀ (mtx : DataMatrix) (r c : Str),
      r ∈ mtx.row_labels → c ∈ mtx.col_labels →
      ∃ i j, mtx.row_labels.get? i = some r ∧
        (∀ k < i, mtx.row_labels.get? k ≠ some r) ∧
        mtx.col_labels.get? j = some c ∧
        (∀ k < j, mtx.col_labels.get? k ≠ some c) ∧
        mtx.getByLabel r c = mtx.get i j) := by
  refine ⟨?_, ?_, ?_, ?_, ?_⟩
  · intro mtx i j row v h1 h2
    rw [DataMatrix.get, cellGet, h1, Option.some_bind, h2]
  · intro mtx i j h
    rw [DataMatrix.get, cellGet,
      List.get?_eq_none.mpr h, Option.none_bind]
  · intro mtx i j row h1 h2
    rw [DataMatrix.get, cellGet, h1, Option.some_bind, List.get?_eq_none.mpr h2]
  · intro mtx r c h
    rw [DataMatrix.getByLabel]
    rcases h with h | h
    · rw [indexOf?_eq_none_of_not_mem h]
    · rw [indexOf?_eq_none_of_not_mem h]
      cases mtx.row_labels.indexOf? r <;> rfl
  · intro mtx r c hr hc
    obtain ⟨i, hi1, hi2, hi3⟩ := indexOf?_spec hr
    obtain ⟨j, hj1, hj2, hj3⟩ := indexOf?_spec hc
    refine ⟨i, j, hi2, hi3, hj2, hj3, ?_⟩
    rw [DataMatrix.getByLabel, hi1, hj1]

/-- Witness for C10, at a concrete 1×2 matrix. -/
theorem claim_C10_witness :
    (⟨[[1, 2]], ["r".data], ["a".data, "b".data]⟩ : DataMatrix).get 0 1 = some 2 ∧
    (⟨[[1, 2]], ["r".data], ["a".data, "b".data]⟩ : DataMatrix).get 5 0 = none ∧
    (⟨[[1, 2]], ["r".data], ["a".data, "b".data]⟩ : DataMatrix).getByLabel
      "z".data "a".data = none := by
  refine ⟨claim_C10.1 _ 0 1 [1, 2] 2 (by decide) (by decide),
    claim_C10.2.1 _ 5 0 (by decide),
    claim_C10.2.2.2.1 _ _ _ (Or.inl (by decide))⟩

/-! ## Claim C3 -/

/-- C3 counterexample: a ragged grid whose second row is shorter than
the column-label list is accepted by `DataMatrix::new` (only the first
row's length is checked), contradicting the claim that any violation of
the every-row shape invariant yields an `IncorrectMatrixLabels` error. -/
theorem claim_C3_counterexample :
    dmNew [[1, 2], [3]] ["r1".data, "r2".data] ["c1".data, "c2".data] =
      .ok ⟨[[1, 2], [3]], ["r1".data, "r2".data], ["c1".data, "c2".data]⟩ ∧
    ¬ (∀ row ∈ [[(1 : Q), 2], [3]], row.length =
        (["c1".data, "c2".data] : List Str).length) := by
  exact ⟨by decide, by decide⟩

/-- C3 (amended): `DataMatrix::new` returns `Ok` exactly when the number
of grid rows equals the number of row labels, the grid is non-empty, and
the FIRST row's length equals the number of column labels (later rows
are not checked, so ragged matrices can be produced); on a row-count
mismatch, or a first-row/column-count mismatch, it returns
`IncorrectMatrixLabels` with that axis's expected/actual counts; and
when the grid is empty but matches an empty row-label list it panics
(the source indexes `data[0]` while building the error). -/
theorem claim_C3 :
    (∀ (d : List (List Q)) (rl cl : List Str),
      (∃ mtx, dmNew d rl cl = .ok mtx) ↔
        (d.length = rl.length ∧ d ≠ [] ∧
          d.head?.map List.length = some cl.length)) ∧
    (∀ (d : List (List Q)) (rl cl : List Str) (mtx : DataMatrix),
      dmNew d rl cl = .ok mtx → mtx = ⟨d, rl, cl⟩) ∧
    (∀ (d : List (List Q)) (rl cl : List Str), d.length ≠ rl.length →
      dmNew d rl cl = .err (.IncorrectMatrixLabels rl.length d.length)) ∧
    (∀ (rl cl : List Str), ([] : List (List Q)).length = rl.length →
      dmNew [] rl cl = .panicked) ∧
    (∀ (d0 : List Q) (rest : List (List Q)) (rl cl : List Str),
      (d0 :: rest).length = rl.length → d0.length ≠ cl.length →
      dmNew (d0 :: rest) rl cl = .err (.IncorrectMatrixLabels cl.length d0.length)) := by
  refine ⟨?_, ?_, ?_, ?_, ?_⟩
  · intro d rl cl
    constructor
    · rintro ⟨mtx, hmtx⟩
      obtain ⟨-, -, -, hlen, d0, rest, rfl, hcol⟩ := dmNew_ok hmtx
      exact ⟨hlen, by simp, by rw [List.head?_cons, Option.map_some', hcol]⟩
    · rintro ⟨h1, h2, h3⟩
      cases d with
      | nil => exact absurd rfl h2
      | cons d0 rest =>
        rw [List.head?_cons, Option.map_some'] at h3
        exact ⟨_, dmNew_total rfl h1 (Option.some.inj h3)⟩
  · intro d rl cl mtx h
    obtain ⟨h1, h2, h3, -, -⟩ := dmNew_ok h
    cases mtx
    simp_all
  · intro d rl cl h
    unfold dmNew
    rw [if_pos h]
  · intro rl cl h
    unfold dmNew
    rw [if_neg (Classical.not_not.mpr h)]
  · intro d0 rest rl cl h1 h2
    unfold dmNew
    rw [if_neg (Classical.not_not.mpr h1)]
    simp only [if_pos h2]

/-- Witness for C3, at concrete grids for each behaviour. -/
theorem claim_C3_witness :
    (∃ mtx, dmNew [[1]] ["r".data] ["c".data] = .ok mtx) ∧
    dmNew [[1, 2]] [] ["c1".data, "c2".data] =
      .err (.IncorrectMatrixLabels 0 1) ∧
    dmNew [] [] ["c".data] = .panicked ∧
    dmNew [[1, 2]] ["r".data] ["c".data] =
      .err (.IncorrectMatrixLabels 1 2) := by
  refine ⟨(claim_C3.1 [[1]] ["r".data] ["c".data]).mpr
      ⟨by decide, by decide, by decide⟩,
    claim_C3.2.2.1 [[1, 2]] [] ["c1".data, "c2".data] (by decide),
    claim_C3.2.2.2.1 [] ["c".data] (by decide),
    claim_C3.2.2.2.2 [1, 2] [] ["r".data] ["c".data] (by decide) (by decide)⟩

/-! ## Claim C9 -/

/-- Modelled from the spec (§4.2 Separator Inference): the pure
extension→separator decision table, used to compare `guess_separator`
against the specified mapping (`dat` and everything unrecognized fall
through to the space default). -/
def sepTable (ext : Str) : Char :=
  if ext = "csv".data then ','
  else if ext = "tsv".data ∨ ext = "tab".data then '\t'
  else if ext = "psv".data then '|'
  else if ext = "ssv".data then ';'
  else ' '

/-- A path segment with no slash and no dot (an ordinary stem or a
single extension). -/
def goodSeg (s : Str) : Prop := s ≠ [] ∧ '.' ∉ s ∧ '/' ∉ s

instance (s : Str) : Decidable (goodSeg s) :=
  inferInstanceAs (Decidable (s ≠ [] ∧ '.' ∉ s ∧ '/' ∉ s))

theorem splitLastDotAux_skip {t : Str} (ht : '.' ∉ t) :
    ∀ (r acc : Str), splitLastDotAux (t ++ '.' :: r) acc =
      if r = [] then none else some (r.reverse, t.reverse ++ acc) := by
  induction t with
  | nil =>
    intro r acc
    rw [List.nil_append, splitLastDotAux, if_pos rfl, List.reverse_nil,
      List.nil_append]
  | cons c t ih =>
    intro r acc
    have hc : c ≠ '.' := fun hh => ht (hh ▸ List.mem_cons_self _ _)
    have ht' : '.' ∉ t := fun hh => ht (List.mem_cons_of_mem _ hh)
    rw [List.cons_append, splitLastDotAux, if_neg hc, ih ht' r (c :: acc),
      List.reverse_cons, List.append_assoc]
    rfl

theorem splitLastDotAux_no_dot {t : Str} (ht : '.' ∉ t) :
    ∀ acc, splitLastDotAux t acc = none := by
  induction t with
  | nil => intro acc; rfl
  | cons c t ih =>
    intro acc
    have hc : c ≠ '.' := fun hh => ht (hh ▸ List.mem_cons_self _ _)
    rw [splitLastDotAux, if_neg hc,
      ih (fun hh => ht (List.mem_cons_of_mem _ hh))]

theorem splitLastDot_split {xs ys : Str} (hxs : xs ≠ []) (hys : '.' ∉ ys) :
    splitLastDot (xs ++ '.' :: ys) = some (xs, ys) := by
  rw [splitLastDot, List.reverse_append, List.reverse_cons, List.append_assoc,
    List.singleton_append,
    splitLastDotAux_skip (by simpa using hys) xs.reverse []]
  rw [if_neg (by simpa using hxs)]
  simp

theorem splitLastDot_no_dot {s : Str} (hs : '.' ∉ s) :
    splitLastDot s = none := by
  rw [splitLastDot, splitLastDotAux_no_dot (by simpa using hs)]

theorem dropWhile_eq_self_of_all {p : Char → Bool} {l : Str}
    (h : ∀ c ∈ l, ¬ p c) : l.dropWhile p = l := by
  cases l with
  | nil => rfl
  | cons c t =>
    rw [List.dropWhile_cons, if_neg (by simpa using h c (List.mem_cons_self _ _))]

theorem takeWhile_eq_self_of_all {p : Char → Bool} {l : Str}
    (h : ∀ c ∈ l, p c) : l.takeWhile p = l := by
  induction l with
  | nil => rfl
  | cons c t ih =>
    rw [List.takeWhile_cons, if_pos (h c (List.mem_cons_self _ _)),
      ih fun c hc => h c (List.mem_cons_of_mem _ hc)]

theorem fileNameOf_no_slash {s : Str} (hns : '/' ∉ s) (h0 : s ≠ [])
    (h1 : s ≠ ['.']) (h2 : s ≠ ['.', '.']) :
    fileNameOf s = some s := by
  rw [fileNameOf, dropTrailingSlashes,
    dropWhile_eq_self_of_all (by
      intro c hc
      simp only [decide_eq_true_eq]
      exact fun hh => hns (hh ▸ List.mem_reverse.mp hc)),
    List.reverse_reverse, afterLastSlash,
    takeWhile_eq_self_of_all (by
      intro c hc
      simp only [decide_eq_true_eq]
      exact fun hh => hns (hh ▸ List.mem_reverse.mp hc)),
    List.reverse_reverse]
  rw [if_neg (by simp [h0, h1, h2])]

theorem goodSeg_ext_name {s rest : Str} (hs : goodSeg s) (hrest : '/' ∉ rest) :
    fileNameOf (s ++ '.' :: rest) = some (s ++ '.' :: rest) := by
  obtain ⟨h0, hdot, hslash⟩ := hs
  obtain ⟨c, s', rfl⟩ : ∃ c s', s = c :: s' := by
    cases s with
    | nil => exact absurd rfl h0
    | cons c s' => exact ⟨c, s', rfl⟩
  have hc : c ≠ '.' := fun hh => hdot (hh ▸ List.mem_cons_self _ _)
  apply fileNameOf_no_slash
  · intro hh
    rcases List.mem_append.mp hh with hh | hh
    · exact hslash hh
    · rcases List.mem_cons.mp hh with hh | hh
      · exact absurd hh.symm (by decide)
      · exact hrest hh
  · simp
  · intro hh
    rw [List.cons_append] at hh
    have := congrArg List.head? hh
    simp only [List.head?_cons] at this
    exact hc (Option.some.inj this)
  · intro hh
    rw [List.cons_append] at hh
    have := congrArg List.head? hh
    simp only [List.head?_cons] at this
    exact hc (Option.some.inj this)

theorem fileNameOf_seg {s : Str} (hs : goodSeg s) : fileNameOf s = some s := by
  obtain ⟨h0, hdot, hslash⟩ := hs
  apply fileNameOf_no_slash hslash h0
  · intro hh
    exact hdot (hh ▸ List.mem_cons_self _ _)
  · intro hh
    exact hdot (hh ▸ List.mem_cons_self _ _)

theorem sepChain_eq (e : Str) :
    (if e = "dat".data then ' '
     else if e = "csv".data then ','
     else if e = "tsv".data then '\t'
     else if e = "tab".data then '\t'
     else if e = "psv".data then '|'
     else if e = "ssv".data then ';'
     else ' ') = sepTable e := by
  by_cases h1 : e = "dat".data
  · rw [if_pos h1, h1]; decide
  rw [if_neg h1]
  by_cases h2 : e = "csv".data
  · rw [if_pos h2, h2]; decide
  rw [if_neg h2]
  by_cases h3 : e = "tsv".data
  · rw [if_pos h3, h3]; decide
  rw [if_neg h3]
  by_cases h4 : e = "tab".data
  · rw [if_pos h4, h4]; decide
  rw [if_neg h4]
  by_cases h5 : e = "psv".data
  · rw [if_pos h5, h5]; decide
  rw [if_neg h5]
  by_cases h6 : e = "ssv".data
  · rw [if_pos h6, h6]; decide
  rw [if_neg h6, sepTable, if_neg h2, if_neg (by simp [h3, h4]),
    if_neg h5, if_neg h6]

theorem pathExt_double {stem e1 e2 : Str} (hs : goodSeg stem)
    (h1 : goodSeg e1) (h2 : goodSeg e2) :
    pathExtension (stem ++ '.' :: e1 ++ '.' :: e2) = some e2 ∧
    pathFileStem (stem ++ '.' :: e1 ++ '.' :: e2) = some (stem ++ '.' :: e1) := by
  have hrest : '/' ∉ e1 ++ '.' :: e2 := by
    intro hh
    rcases List.mem_append.mp hh with hh | hh
    · exact h1.2.2 hh
    · rcases List.mem_cons.mp hh with hh | hh
      · exact absurd hh (by decide)
      · exact h2.2.2 hh
  have hname := goodSeg_ext_name hs hrest
  rw [show stem ++ '.' :: (e1 ++ '.' :: e2) = stem ++ '.' :: e1 ++ '.' :: e2 by
    simp] at hname
  have hsplit : splitLastDot (stem ++ '.' :: e1 ++ '.' :: e2) =
      some (stem ++ '.' :: e1, e2) := by
    rw [show stem ++ '.' :: e1 ++ '.' :: e2 = (stem ++ '.' :: e1) ++ '.' :: e2 by
      simp]
    exact splitLastDot_split (by simp) h2.2.1
  constructor
  · rw [pathExtension, hname, Option.some_bind, hsplit]
    rfl
  · rw [pathFileStem, hname, Option.map_some', hsplit]
    rfl

theorem pathExt_single {stem e1 : Str} (hs : goodSeg stem) (h1 : goodSeg e1) :
    pathExtension (stem ++ '.' :: e1) = some e1 := by
  have hname := goodSeg_ext_name hs h1.2.2
  rw [pathExtension, hname, Option.some_bind,
    splitLastDot_split hs.1 h1.2.1]
  rfl

theorem pathExt_none {stem : Str} (hs : goodSeg stem) :
    pathExtension stem = none := by
  rw [pathExtension, fileNameOf_seg hs, Option.some_bind,
    splitLastDot_no_dot hs.2.1]
  rfl

/-- C9: with no configured separator the inferred one is a pure function
of the path string: exactly one compression suffix among
`.gz/.bz2/.xz/.zst/.zip` (case-insensitively) is peeled, and the
remaining extension (lower-cased) is looked up in the table
`csv → ','`, `tsv`/`tab` → tab, `psv → '|'`, `ssv → ';'`, with `dat`,
unrecognized and absent extensions all giving the space (whitespace
split) separator; in particular a path ending in `.csv.gz` infers `,`. -/
theorem claim_C9 :
    (∀ stem e1 e2 : Str, goodSeg stem → goodSeg e1 → goodSeg e2 →
      lowerChars e2 ∈ compressionExts →
      guessSeparator (stem ++ '.' :: e1 ++ '.' :: e2) = sepTable (lowerChars e1)) ∧
    (∀ stem e1 : Str, goodSeg stem → goodSeg e1 →
      lowerChars e1 ∉ compressionExts →
      guessSeparator (stem ++ '.' :: e1) = sepTable (lowerChars e1)) ∧
    (∀ stem : Str, goodSeg stem → guessSeparator stem = ' ') ∧
    sepTable "csv".data = ',' ∧ sepTable "tsv".data = '\t' ∧
    sepTable "tab".data = '\t' ∧ sepTable "psv".data = '|' ∧
    sepTable "ssv".data = ';' ∧ sepTable "dat".data = ' ' ∧
    guessSeparator "data.csv.gz".data = ',' ∧
    guessSeparator "data.TSV".data = '\t' ∧
    guessSeparator "dir/data.xyz".data = ' ' := by
  refine ⟨?_, ?_, ?_, by decide, by decide, by decide, by decide, by decide,
    by decide, by decide, by decide, by decide⟩
  · intro stem e1 e2 hs h1 h2 hcomp
    obtain ⟨hext, hstem⟩ := pathExt_double hs h1 h2
    unfold guessSeparator
    rw [hext]
    dsimp only
    rw [if_pos hcomp, hstem]
    dsimp only
    rw [splitLastDot_split hs.1 h1.2.1]
    dsimp only [Option.map_some']
    exact sepChain_eq _
  · intro stem e1 hs h1 hcomp
    unfold guessSeparator
    rw [pathExt_single hs h1]
    dsimp only
    rw [if_neg hcomp]
    exact sepChain_eq _
  · intro stem hs
    unfold guessSeparator
    rw [pathExt_none hs]
    dsimp only
    decide

/-- Witness for C9: the compression-peel case at the spec's own
scenario, `*.csv.gz` inferring `,`. -/
theorem claim_C9_witness : guessSeparator "archive.csv.gz".data = ',' := by
  have h := claim_C9.1 "archive".data "csv".data "gz".data
    (by decide) (by decide) (by decide) (by decide)
  have heq : "archive.csv.gz".data =
      "archive".data ++ '.' :: "csv".data ++ '.' :: "gz".data := by decide
  rw [heq, h]
  decide

/-! ## Claim C5 -/

/-- A sequence of `Indexer::add_explicit` calls. -/
def applyExplicits (m : Indexer) : List (Str × Nat) → Indexer
  | [] => m
  | (l, i) :: rest => applyExplicits (idxAddExplicit m l i) rest

theorem idxAddExplicit_extends {m : Indexer} {l : Str} {x : Nat}
    (k : Str) (i : Nat) (h : alookup m l = some x) :
    alookup (idxAddExplicit m k i) l = some x := by
  unfold idxAddExplicit
  cases hk : alookup m k with
  | some j => exact h
  | none =>
    rw [alookup_append, h]

theorem applyExplicits_lookup (asgs : List (Str × Nat)) :
    ∀ (m : Indexer) (l : Str),
    alookup (applyExplicits m asgs) l =
      match alookup m l with
      | some x => some x
      | none => alookup asgs l := by
  induction asgs with
  | nil =>
    intro m l
    cases h : alookup m l <;> simp [applyExplicits, h, alookup]
  | cons e rest ih =>
    obtain ⟨k, i⟩ := e
    intro m l
    rw [applyExplicits, ih]
    unfold idxAddExplicit
    cases hk : alookup m k with
    | some j =>
      by_cases hkl : k = l
      · subst hkl
        rw [hk]
      · cases hml : alookup m l <;> simp [alookup, hkl]
    | none =>
      rw [alookup_append]
      by_cases hkl : k = l
      · subst hkl
        rw [hk]
        simp [alookup]
      · cases hml : alookup m l <;> simp [alookup, hkl]

theorem ffPass1Explicit_stable {rlc clc ric cic : Nat} {sym : Bool} :
    ∀ {ps : List (Nat × List Str)} {rI cI : Indexer} {out : Indexer × Indexer},
    ffPass1Explicit rlc clc ric cic sym ps rI cI = .ok out →
    (∀ l x, alookup rI l = some x → alookup out.1 l = some x) ∧
    (∀ l x, alookup cI l = some x → alookup out.2 l = some x) := by
  intro ps
  induction ps with
  | nil =>
    intro rI cI out h
    rw [ffPass1Explicit] at h
    cases h
    exact ⟨fun l x hx => hx, fun l x hx => hx⟩
  | cons q ps ih =>
    intro rI cI out h
    obtain ⟨ln, p⟩ := q
    rw [ffPass1Explicit] at h
    cases h1 : p.get? ric with
    | none => rw [h1] at h; exact absurd h (by simp)
    | some tokR =>
      rw [h1] at h
      dsimp only at h
      cases h2 : parseNat tokR with
      | none => rw [h2] at h; exact absurd h (by simp)
      | some rIdx =>
        rw [h2] at h
        dsimp only at h
        cases h3 : p.get? cic with
        | none => rw [h3] at h; exact absurd h (by simp)
        | some tokC =>
          rw [h3] at h
          dsimp only at h
          cases h4 : parseNat tokC with
          | none => rw [h4] at h; exact absurd h (by simp)
          | some cIdx =>
            rw [h4] at h
            dsimp only at h
            cases h5 : p.get? rlc with
            | none => rw [h5] at h; exact absurd h (by simp)
            | some rowLab =>
              rw [h5] at h
              dsimp only at h
              cases h6 : p.get? clc with
              | none => rw [h6] at h; exact absurd h (by simp)
              | some colLab =>
                rw [h6] at h
                dsimp only at h
                cases hsymb : sym with
                | true =>
                  subst hsymb
                  rw [if_pos rfl] at h
                  obtain ⟨hr, hc⟩ := ih h
                  exact ⟨fun l x hx => hr l x
                      (idxAddExplicit_extends colLab cIdx
                        (idxAddExplicit_extends rowLab rIdx hx)),
                    hc⟩
                | false =>
                  subst hsymb
                  rw [if_neg Bool.false_ne_true] at h
                  obtain ⟨hr, hc⟩ := ih h
                  exact ⟨fun l x hx => hr l x
                      (idxAddExplicit_extends rowLab rIdx hx),
                    fun l x hx => hc l x
                      (idxAddExplicit_extends colLab cIdx hx)⟩

/-- C5 counterexample: in `read_matrix_indexed` (explicit-index mode)
there is no label→index map at all — label slots are overwritten
last-write-wins — so the label `L`, first assigned index `0` by the
first line, ends up resolved at index `1`: a later line (`M` at `0`)
silently displaced it, contradicting the claim that the index finally
associated with a label is always its first assignment. -/
theorem claim_C5_counterexample :
    readMatrixIndexed ["L A 0 0 1".data, "L A 1 1 2".data, "M A 0 0 3".data]
      0 1 2 3 4 false =
      .ok ⟨[[3, 0], [0, 2]], ["M".data, "L".data], ["A".data, "A".data]⟩ ∧
    (["M".data, "L".data] : List Str).indexOf? "L".data = some 1 ∧
    (1 : Nat) ≠ 0 := by
  exact ⟨by decide, by decide, by decide⟩

/-- C5 (amended): the first-explicit-assignment-wins behaviour belongs
to the builder's `Indexer`: folding any stream of `add_explicit` calls
gives every label the index of its *first* assignment (later conflicting
assignments are silently ignored, no conflict is ever reported), and
`from_file`'s explicit pass never overwrites an existing binding —
witnessed concretely by a two-line quintuple build where the later
conflicting index for label `A` is ignored.  `read_matrix_indexed`, by
contrast, fills label slots last-write-wins, so there a label's earlier
slot can be taken over by a later line. -/
theorem claim_C5 :
    (∀ (asgs : List (Str × Nat)) (l : Str),
      alookup (applyExplicits [] asgs) l = alookup asgs l) ∧
    (∀ (rlc clc ric cic : Nat) (sym : Bool) (ps : List (Nat × List Str))
      (rI cI : Indexer) (out : Indexer × Indexer),
      ffPass1Explicit rlc clc ric cic sym ps rI cI = .ok out →
      ∀ l x, alookup rI l = some x → alookup out.1 l = some x) ∧
    (fromFile ((Builder.new.indexColumns 2 3).dataColumn 4) "f.txt".data
      ["A X 0 0 1".data, "A X 1 1 2".data] =
      .ok ⟨[[2]], ["A".data], ["X".data]⟩) ∧
    (readMatrixIndexed ["P A 0 0 1".data, "P A 1 1 2".data, "Q A 0 0 3".data]
      0 1 2 3 4 false =
      .ok ⟨[[3, 0], [0, 2]], ["Q".data, "P".data], ["A".data, "A".data]⟩) := by
  refine ⟨?_, ?_, by decide, by decide⟩
  · intro asgs l
    rw [applyExplicits_lookup asgs [] l]
    rfl
  · intro rlc clc ric cic sym ps rI cI out h
    exact (ffPass1Explicit_stable h).1

/-- Witness for C5: `add_explicit` folds keep the first assignment. -/
theorem claim_C5_witness :
    alookup (applyExplicits []
      [("A".data, 0), ("A".data, 7), ("B".data, 2)]) "A".data = some 0 := by
  rw [claim_C5.1 [("A".data, 0), ("A".data, 7), ("B".data, 2)] "A".data]
  decide

/-! ## Claim C6 -/

/-- The pure filter-and-tokenize part of `parse_plain` (no header
logic). -/
def tokenizePlain (sep : Char) (lines : List Str) : List (List Str) :=
  lines.filterMap fun line =>
    if trimStr line = [] ∨ line.head? = some '#' then none
    else some (tokenizeLine sep line)

theorem parsePlainAux_passed (sep : Char) (skip : Bool) :
    ∀ ls : List Str, parsePlainAux sep skip ls true = tokenizePlain sep ls := by
  intro ls
  induction ls with
  | nil => rfl
  | cons line rest ih =>
    rw [parsePlainAux, tokenizePlain, List.filterMap_cons]
    by_cases hd : trimStr line = [] ∨ line.head? = some '#'
    · rw [if_pos hd, if_pos hd, ih]
      rfl
    · rw [if_neg hd, if_neg hd, if_neg (by simp), ih]
      rfl

theorem parsePlainAux_noskip (sep : Char) :
    ∀ (ls : List Str) (fp : Bool),
    parsePlainAux sep false ls fp = tokenizePlain sep ls := by
  intro ls
  induction ls with
  | nil => intro fp; rfl
  | cons line rest ih =>
    intro fp
    rw [parsePlainAux, tokenizePlain, List.filterMap_cons]
    by_cases hd : trimStr line = [] ∨ line.head? = some '#'
    · rw [if_pos hd, if_pos hd, ih]
      rfl
    · rw [if_neg hd, if_neg hd, if_neg (by simp), ih]
      rfl

theorem parsePlain_skip_eq_tail (sep : Char) (lines : List Str) :
    parsePlain sep true lines = (parsePlain sep false lines).tail := by
  rw [parsePlain, parsePlain, parsePlainAux_noskip]
  induction lines with
  | nil => rfl
  | cons line rest ih =>
    rw [parsePlainAux, tokenizePlain, List.filterMap_cons]
    by_cases hd : trimStr line = [] ∨ line.head? = some '#'
    · rw [if_pos hd, if_pos hd, ih, tokenizePlain]
    · rw [if_neg hd, if_neg hd, if_pos (by simp), List.tail_cons,
        parsePlainAux_passed, tokenizePlain]

theorem parsePlainAux_insert {sep : Char} {skip : Bool} {junk : Str}
    (hjunk : trimStr junk = [] ∨ junk.head? = some '#') :
    ∀ (pre post : List Str) (fp : Bool),
    parsePlainAux sep skip (pre ++ junk :: post) fp =
      parsePlainAux sep skip (pre ++ post) fp := by
  intro pre
  induction pre with
  | nil =>
    intro post fp
    rw [List.nil_append, List.nil_append, parsePlainAux, if_pos hjunk]
  | cons p pre ih =>
    intro post fp
    rw [List.cons_append, List.cons_append, parsePlainAux, parsePlainAux]
    by_cases hd : trimStr p = [] ∨ p.head? = some '#'
    · rw [if_pos hd, if_pos hd, ih]
    · rw [if_neg hd, if_neg hd]
      by_cases hskip : ¬ fp ∧ skip
      · rw [if_pos hskip, if_pos hskip, ih]
      · rw [if_neg hskip, if_neg hskip, ih]

theorem readMatrixAux_okPart_enum {ci cj cv maxCol : Nat} {sym : Bool} :
    ∀ (ls : List Str) (k k' : Nat) (m : Indexer) (ctr : Nat)
      (es : List (Nat × Nat × Q)),
    okPart (readMatrixAux ci cj cv maxCol sym (List.enumFrom k ls) m ctr es) =
    okPart (readMatrixAux ci cj cv maxCol sym (List.enumFrom k' ls) m ctr es) := by
  intro ls
  induction ls with
  | nil => intro k k' m ctr es; rfl
  | cons line rest ih =>
    intro k k' m ctr es
    rw [List.enumFrom_cons, List.enumFrom_cons, readMatrixAux, readMatrixAux]
    by_cases hd : trimStr line = [] ∨ (trimStr line).head? = some '#'
    · rw [if_pos hd, if_pos hd]
      exact ih (k + 1) (k' + 1) m ctr es
    · rw [if_neg hd, if_neg hd]
      by_cases hshort : (splitWs (trimStr line)).length ≤ maxCol
      · rw [if_pos hshort, if_pos hshort]
        rfl
      · rw [if_neg hshort, if_neg hshort]
        cases parseFloat ((splitWs (trimStr line)).getD cv []) with
        | none => rfl
        | some v =>
          dsimp only
          exact ih (k + 1) (k' + 1) _ _ _

theorem readColumnAux_okPart_enum :
    ∀ (ls : List Str) (k k' : Nat) (vs : List Q),
    okPart (readColumnAux (List.enumFrom k ls) vs) =
    okPart (readColumnAux (List.enumFrom k' ls) vs) := by
  intro ls
  induction ls with
  | nil => intro k k' vs; rfl
  | cons line rest ih =>
    intro k k' vs
    rw [List.enumFrom_cons, List.enumFrom_cons, readColumnAux, readColumnAux]
    by_cases hd : trimStr line = [] ∨ (trimStr line).head? = some '#'
    · rw [if_pos hd, if_pos hd]
      exact ih (k + 1) (k' + 1) vs
    · rw [if_neg hd, if_neg hd]
      by_cases hlong : 1 < (splitWs (trimStr line)).length
      · rw [if_pos hlong, if_pos hlong]
        rfl
      · rw [if_neg hlong, if_neg hlong]
        cases (splitWs (trimStr line)).head? with
        | none => rfl
        | some tok =>
          dsimp only
          cases parseFloat tok with
          | none => rfl
          | some v =>
            dsimp only
            exact ih (k + 1) (k' + 1) _

theorem rmiAux_okPart_enum {rl cl ri cix vi maxCol : Nat} {sym : Bool} :
    ∀ (ls : List Str) (k k' mx : Nat) (es : List (Nat × Nat × Str × Str × Q)),
    okPart (rmiAux rl cl ri cix vi maxCol sym (List.enumFrom k ls) mx es) =
    okPart (rmiAux rl cl ri cix vi maxCol sym (List.enumFrom k' ls) mx es) := by
  intro ls
  induction ls with
  | nil => intro k k' mx es; rfl
  | cons line rest ih =>
    intro k k' mx es
    rw [List.enumFrom_cons, List.enumFrom_cons, rmiAux, rmiAux]
    by_cases hd : trimStr line = [] ∨ (trimStr line).head? = some '#'
    · rw [if_pos hd, if_pos hd]
      exact ih (k + 1) (k' + 1) mx es
    · rw [if_neg hd, if_neg hd]
      by_cases hshort : (splitWs (trimStr line)).length ≤ maxCol
      · rw [if_pos hshort, if_pos hshort]
        rfl
      · rw [if_neg hshort, if_neg hshort]
        cases parseNat ((splitWs (trimStr line)).getD ri []) with
        | none => rfl
        | some i =>
          dsimp only
          cases parseNat ((splitWs (trimStr line)).getD cix []) with
          | none => rfl
          | some j =>
            dsimp only
            cases parseFloat ((splitWs (trimStr line)).getD vi []) with
            | none => rfl
            | some v =>
              dsimp only
              exact ih (k + 1) (k' + 1) _ _

/-- C6 counterexample: the line `" # x"` is blank-prefixed with `#` as
its first non-whitespace character, yet `parse_plain` does NOT drop it —
the comment check there is `starts_with('#')` on the untrimmed line —
so it is tokenized as the data line `["#", "x"]`. -/
theorem claim_C6_counterexample :
    parsePlain ' ' false [" # x".data] = [["#".data, "x".data]] ∧
    parsePlain ' ' false [" # x".data] ≠ [] ∧
    trimStr " # x".data ≠ [] ∧
    (trimStr " # x".data).head? = some '#' := by
  exact ⟨by decide, by decide, by decide, by decide⟩

/-- C6 (amended): `parse_plain` unconditionally drops lines that are
empty after trimming and lines whose first RAW character is `#` (a `#`
preceded by whitespace is tokenized as data there); the three `lib.rs`
readers drop lines whose trimmed form is empty or starts with `#`, and
such dropped lines never affect a successful result; dropped lines do
not count toward the header skip, and with `skip_header` set the output
is exactly the tail of the unskipped output (the first surviving line is
dropped untokenized). -/
theorem claim_C6 :
    (∀ (sep : Char) (skip : Bool) (junk : Str) (pre post : List Str),
      trimStr junk = [] ∨ junk.head? = some '#' →
      parsePlain sep skip (pre ++ junk :: post) =
        parsePlain sep skip (pre ++ post)) ∧
    (∀ (sep : Char) (lines : List Str),
      parsePlain sep true lines = (parsePlain sep false lines).tail) ∧
    (∀ (junk : Str) (lines : List Str) (ci cj cv : Nat) (sym : Bool),
      trimStr junk = [] ∨ (trimStr junk).head? = some '#' →
      okPart (readMatrix (junk :: lines) ci cj cv sym) =
        okPart (readMatrix lines ci cj cv sym)) ∧
    (∀ (junk : Str) (lines : List Str),
      trimStr junk = [] ∨ (trimStr junk).head? = some '#' →
      okPart (readColumn (junk :: lines)) = okPart (readColumn lines)) ∧
    (∀ (junk : Str) (lines : List Str) (rl cl ri cix vi : Nat) (sym : Bool),
      trimStr junk = [] ∨ (trimStr junk).head? = some '#' →
      okPart (readMatrixIndexed (junk :: lines) rl cl ri cix vi sym) =
        okPart (readMatrixIndexed lines rl cl ri cix vi sym)) := by
  refine ⟨?_, parsePlain_skip_eq_tail, ?_, ?_, ?_⟩
  · intro sep skip junk pre post hjunk
    rw [parsePlain, parsePlain, parsePlainAux_insert hjunk]
  · intro junk lines ci cj cv sym hjunk
    unfold readMatrix
    dsimp only
    rw [okPart_bind, okPart_bind]
    congr 1
    show okPart (readMatrixAux _ _ _ _ _ (List.enumFrom 0 (junk :: lines)) [] 0 []) =
      okPart (readMatrixAux _ _ _ _ _ (List.enumFrom 0 lines) [] 0 [])
    rw [List.enumFrom_cons, readMatrixAux, if_pos hjunk]
    exact readMatrixAux_okPart_enum lines 1 0 [] 0 []
  · intro junk lines hjunk
    unfold readColumn
    rw [okPart_bind, okPart_bind]
    congr 1
    show okPart (readColumnAux (List.enumFrom 0 (junk :: lines)) []) =
      okPart (readColumnAux (List.enumFrom 0 lines) [])
    rw [List.enumFrom_cons, readColumnAux, if_pos hjunk]
    exact readColumnAux_okPart_enum lines 1 0 []
  · intro junk lines rl cl ri cix vi sym hjunk
    unfold readMatrixIndexed
    dsimp only
    rw [okPart_bind, okPart_bind]
    congr 1
    show okPart (rmiAux _ _ _ _ _ _ _ (List.enumFrom 0 (junk :: lines)) 0 []) =
      okPart (rmiAux _ _ _ _ _ _ _ (List.enumFrom 0 lines) 0 [])
    rw [List.enumFrom_cons, rmiAux, if_pos hjunk]
    exact rmiAux_okPart_enum lines 1 0 0 []

/-- Witness for C6 at concrete comment/blank/header inputs. -/
theorem claim_C6_witness :
    parsePlain ' ' false ["# c".data, "a b".data, "".data, "x y".data] =
      parsePlain ' ' false ["a b".data, "x y".data] ∧
    parsePlain ' ' true ["# c".data, "a b".data, "x y".data] = [["x".data, "y".data]] ∧
    okPart (readMatrix ["# note".data, "a b 1".data] 0 1 2 false) =
      okPart (readMatrix ["a b 1".data] 0 1 2 false) := by
  refine ⟨?_, ?_, claim_C6.2.2.1 "# note".data ["a b 1".data] 0 1 2 false (by decide)⟩
  · have h1 := claim_C6.1 ' ' false "# c".data [] ["a b".data, "".data, "x y".data]
      (by decide)
    have h2 := claim_C6.1 ' ' false "".data ["a b".data] ["x y".data] (by decide)
    rw [List.nil_append, List.nil_append] at h1
    rw [h1]
    exact h2
  · rw [claim_C6.2.1 ' ' ["# c".data, "a b".data, "x y".data]]
    decide

/-! ## Claim C7 -/

/-- Inversion for binds that end in an error. -/
theorem bind_eq_err {α β : Type} {r : Res α} {f : α → Res β} {e : DMError}
    (h : Res.bind r f = .err e) :
    r = .err e ∨ ∃ a, r = .ok a ∧ f a = .err e := by
  cases r with
  | ok a => exact Or.inr ⟨a, rfl, h⟩
  | err e1 =>
    rw [Res.bind_err] at h
    injection h with h
    exact Or.inl (by rw [h])
  | panicked => rw [Res.bind_panicked] at h; exact Res.noConfusion h

/-- A line `read_column` consumes without error: dropped, or a single
token that parses as a float. -/
def fineCol (line : Str) : Prop :=
  (trimStr line = [] ∨ (trimStr line).head? = some '#') ∨
    (¬ 1 < (splitWs (trimStr line)).length ∧
      ((splitWs (trimStr line)).head?.bind parseFloat).isSome = true)

instance (line : Str) : Decidable (fineCol line) := by
  unfold fineCol; infer_instance

/-- A token row `read_one_column` consumes without error: long enough,
and the token at the value column parses as a float. -/
def fineOne (column : Nat) (parts : List Str) : Prop :=
  ¬ parts.length ≤ column ∧ (parseFloat (parts.getD column [])).isSome = true

instance (column : Nat) (parts : List Str) : Decidable (fineOne column parts) := by
  unfold fineOne; infer_instance

theorem readColumnAux_tooMany {bad : Str}
    (hsurv : ¬ (trimStr bad = [] ∨ (trimStr bad).head? = some '#'))
    (hlong : 1 < (splitWs (trimStr bad)).length) :
    ∀ (pre : List Str), (∀ l ∈ pre, fineCol l) →
    ∀ (post : List Str) (k : Nat) (vs : List Q),
    readColumnAux (List.enumFrom k (pre ++ bad :: post)) vs =
      .err (.TooManyColumns (k + pre.length + 1) (trimStr bad)) := by
  intro pre
  induction pre with
  | nil =>
    intro _ post k vs
    rw [List.nil_append, List.enumFrom_cons, readColumnAux, if_neg hsurv,
      if_pos hlong]
    rfl
  | cons p pre ih =>
    intro hfine post k vs
    have hrest : ∀ l ∈ pre, fineCol l := fun l hl => hfine l (List.mem_cons_of_mem _ hl)
    have harith : k + 1 + pre.length + 1 = k + (p :: pre).length + 1 := by
      simp only [List.length_cons]; omega
    rw [List.cons_append, List.enumFrom_cons, readColumnAux]
    by_cases hdrop : trimStr p = [] ∨ (trimStr p).head? = some '#'
    · rw [if_pos hdrop, ih hrest post (k + 1) vs, harith]
    · rcases hfine p (List.mem_cons_self _ _) with hd | ⟨hnl, hsome⟩
      · exact absurd hd hdrop
      · rw [if_neg hdrop, if_neg hnl]
        cases htok : (splitWs (trimStr p)).head? with
        | none => rw [htok, Option.none_bind] at hsome; exact absurd hsome (by simp)
        | some tok =>
          rw [htok, Option.some_bind] at hsome
          obtain ⟨v, hv⟩ := Option.isSome_iff_exists.mp hsome
          dsimp only
          rw [hv]
          dsimp only
          rw [ih hrest post (k + 1) (vs ++ [v]), harith]

theorem readColumnAux_err_shape :
    ∀ (rows : List (Nat × Str)) (vs : List Q) (e : DMError),
    readColumnAux rows vs = .err e →
    (∃ a b, e = .TooManyColumns a b) ∨ (∃ a b, e = .ParseError a b) := by
  intro rows
  induction rows with
  | nil => intro vs e h; exact Res.noConfusion h
  | cons lp rest ih =>
    obtain ⟨ln, line⟩ := lp
    intro vs e h
    rw [readColumnAux] at h
    by_cases hd : trimStr line = [] ∨ (trimStr line).head? = some '#'
    · rw [if_pos hd] at h
      exact ih vs e h
    · rw [if_neg hd] at h
      by_cases hl : 1 < (splitWs (trimStr line)).length
      · rw [if_pos hl] at h
        injection h with h
        exact Or.inl ⟨_, _, h.symm⟩
      · rw [if_neg hl] at h
        cases htok : (splitWs (trimStr line)).head? with
        | none =>
          rw [htok] at h
          dsimp only at h
          exact Res.noConfusion h
        | some tok =>
          rw [htok] at h
          dsimp only at h
          cases hv : parseFloat tok with
          | none =>
            rw [hv] at h
            dsimp only at h
            injection h with h
            exact Or.inr ⟨_, _, h.symm⟩
          | some v =>
            rw [hv] at h
            dsimp only at h
            exact ih _ e h

theorem dmNew_err_shape (g : List (List Q)) (rl cl : List Str) (e : DMError)
    (h : dmNew g rl cl = .err e) : ∃ a b, e = .IncorrectMatrixLabels a b := by
  unfold dmNew at h
  by_cases h1 : g.length ≠ rl.length
  · rw [if_pos h1] at h
    injection h with h
    exact ⟨_, _, h.symm⟩
  · rw [if_neg h1] at h
    cases g with
    | nil => exact Res.noConfusion h
    | cons d0 rest =>
      dsimp only at h
      by_cases h2 : d0.length ≠ cl.length
      · rw [if_pos h2] at h
        injection h with h
        exact ⟨_, _, h.symm⟩
      · rw [if_neg h2] at h
        exact Res.noConfusion h

theorem readColumn_no_notEnough (lines : List Str) (a b : Nat) (c : Str) :
    readColumn lines ≠ .err (.NotEnoughColumns a b c) := by
  intro h
  unfold readColumn at h
  rcases bind_eq_err h with h1 | ⟨vs, _, h2⟩
  · rcases readColumnAux_err_shape _ _ _ h1 with ⟨x, y, hxy⟩ | ⟨x, y, hxy⟩ <;>
      exact DMError.noConfusion hxy
  · dsimp only at h2
    by_cases hsq : isqrt vs.length * isqrt vs.length ≠ vs.length
    · rw [if_pos hsq] at h2
      injection h2 with h2
      exact DMError.noConfusion h2
    · rw [if_neg hsq] at h2
      obtain ⟨x, y, hxy⟩ := dmNew_err_shape _ _ _ _ h2
      exact DMError.noConfusion hxy

theorem readOneColumnAux_notEnough {column : Nat} {bad : List Str}
    (hshort : bad.length ≤ column) :
    ∀ (pre : List (List Str)), (∀ p ∈ pre, fineOne column p) →
    ∀ (post : List (List Str)) (k : Nat) (vs : List Q),
    readOneColumnAux column (List.enumFrom k (pre ++ bad :: post)) vs =
      .err (.NotEnoughColumns (k + pre.length + 1) (column + 1)
        (debugFmtParts bad)) := by
  intro pre
  induction pre with
  | nil =>
    intro _ post k vs
    rw [List.nil_append, List.enumFrom_cons, readOneColumnAux, if_pos hshort]
    rfl
  | cons p pre ih =>
    intro hfine post k vs
    have hrest : ∀ q ∈ pre, fineOne column q := fun q hq =>
      hfine q (List.mem_cons_of_mem _ hq)
    have harith : k + 1 + pre.length + 1 = k + (p :: pre).length + 1 := by
      simp only [List.length_cons]; omega
    obtain ⟨hlen, hsome⟩ := hfine p (List.mem_cons_self _ _)
    obtain ⟨v, hv⟩ := Option.isSome_iff_exists.mp hsome
    rw [List.cons_append, List.enumFrom_cons, readOneColumnAux, if_neg hlen, hv]
    dsimp only
    rw [ih hrest post (k + 1) (vs ++ [v]), harith]

theorem readOneColumnAux_err_shape (column : Nat) :
    ∀ (rows : List (Nat × List Str)) (vs : List Q) (e : DMError),
    readOneColumnAux column rows vs = .err e →
    (∃ a b c, e = .NotEnoughColumns a b c) ∨ (∃ a b, e = .ParseError a b) := by
  intro rows
  induction rows with
  | nil => intro vs e h; exact Res.noConfusion h
  | cons lp rest ih =>
    obtain ⟨ln, parts⟩ := lp
    intro vs e h
    rw [readOneColumnAux] at h
    by_cases hs : parts.length ≤ column
    · rw [if_pos hs] at h
      injection h with h
      exact Or.inl ⟨_, _, _, h.symm⟩
    · rw [if_neg hs] at h
      cases hv : parseFloat (parts.getD column []) with
      | none =>
        rw [hv] at h
        dsimp only at h
        injection h with h
        exact Or.inr ⟨_, _, h.symm⟩
      | some v =>
        rw [hv] at h
        dsimp only at h
        exact ih _ e h

theorem readOneColumn_no_tooMany (b : Builder) (lines : List Str)
    (column : Nat) (labels : List Str) (a : Nat) (c : Str) :
    readOneColumn b lines column labels ≠ .err (.TooManyColumns a c) := by
  intro h
  unfold readOneColumn at h
  rcases bind_eq_err h with h1 | ⟨vs, _, h2⟩
  · rcases readOneColumnAux_err_shape _ _ _ _ h1 with ⟨x, y, z, hxy⟩ | ⟨x, y, hxy⟩ <;>
      exact DMError.noConfusion hxy
  · dsimp only at h2
    by_cases hsq : labels.length * labels.length ≠ vs.length
    · rw [if_pos hsq] at h2
      injection h2 with h2
      exact DMError.noConfusion h2
    · rw [if_neg hsq] at h2
      obtain ⟨x, y, hxy⟩ := dmNew_err_shape _ _ _ _ h2
      exact DMError.noConfusion hxy

/-- C7 counterexample: in `from_file` with a supplied label list, a line
with MORE tokens than needed does not fail with `TooManyColumns` — extra
tokens are simply ignored and the build succeeds. -/
theorem claim_C7_counterexample :
    fromFile ((Builder.new.withLabels ["A".data]).dataColumn 0) "f.txt".data
        ["1.0 junk".data] =
      .ok ⟨[[⟨10, 10⟩]], ["A".data], ["A".data]⟩ ∧
    1 < (splitWs (trimStr "1.0 junk".data)).length := by
  exact ⟨by decide, by decide⟩

/-- C7 (amended): `read_column` fails with `TooManyColumns` on the first
surviving line holding more than one token and never returns
`NotEnoughColumns` (a surviving line always has at least one token);
`from_file` with a supplied label list delegates to `read_one_column`,
which fails with `NotEnoughColumns` (needed = value column + 1) on the
first token row shorter than the value column requires, and never
returns `TooManyColumns`: tokens beyond the value column are ignored. -/
theorem claim_C7 :
    (∀ (bad : Str) (pre post : List Str),
      ¬ (trimStr bad = [] ∨ (trimStr bad).head? = some '#') →
      1 < (splitWs (trimStr bad)).length →
      (∀ l ∈ pre, fineCol l) →
      readColumn (pre ++ bad :: post) =
        .err (.TooManyColumns (pre.length + 1) (trimStr bad))) ∧
    (∀ (lines : List Str) (a b : Nat) (c : Str),
      readColumn lines ≠ .err (.NotEnoughColumns a b c)) ∧
    (∀ (b : Builder) (lines labels : List Str) (column : Nat)
        (bad : List Str) (pre post : List (List Str)),
      parsePlain ' ' b.skip_header lines = pre ++ bad :: post →
      bad.length ≤ column →
      (∀ p ∈ pre, fineOne column p) →
      readOneColumn b lines column labels =
        .err (.NotEnoughColumns (pre.length + 1) (column + 1)
          (debugFmtParts bad))) ∧
    (∀ (b : Builder) (path : Str) (lines ls : List Str),
      b.labels = some ls →
      fromFile b path lines = readOneColumn b lines b.data_col ls) ∧
    (∀ (b : Builder) (path : Str) (lines ls : List Str) (a : Nat) (c : Str),
      b.labels = some ls →
      fromFile b path lines ≠ .err (.TooManyColumns a c)) := by
  have hdisp : ∀ (b : Builder) (path : Str) (lines ls : List Str),
      b.labels = some ls →
      fromFile b path lines = readOneColumn b lines b.data_col ls := by
    intro b path lines ls hls
    unfold fromFile
    rw [hls]
  refine ⟨?_, readColumn_no_notEnough, ?_, hdisp, ?_⟩
  · intro bad pre post hsurv hlong hfine
    unfold readColumn
    rw [enumLines, List.enum]
    rw [readColumnAux_tooMany hsurv hlong pre hfine post 0 []]
    simp
  · intro b lines labels column bad pre post hpp hshort hfine
    unfold readOneColumn
    dsimp only
    rw [hpp, List.enum, readOneColumnAux_notEnough hshort pre hfine post 0 []]
    simp
  · intro b path lines ls a c hls
    rw [hdisp b path lines ls hls]
    exact readOneColumn_no_tooMany b lines b.data_col ls a c

/-- Witness for C7 at concrete single-column inputs. -/
theorem claim_C7_witness :
    readColumn ["1.0".data, "2.0 3.0".data] =
      .err (.TooManyColumns (["1.0".data].length + 1) (trimStr "2.0 3.0".data)) ∧
    readColumn ["a b".data] ≠ .err (.NotEnoughColumns 1 2 "a b".data) ∧
    readOneColumn (Builder.new.withLabels ["A".data]) ["7".data] 2 ["A".data] =
      .err (.NotEnoughColumns 1 3 (debugFmtParts ["7".data])) ∧
    fromFile ((Builder.new.withLabels ["A".data]).dataColumn 0) "f.txt".data
        ["1.0 junk".data] ≠ .err (.TooManyColumns 1 "1.0 junk".data) := by
  refine ⟨?_, claim_C7.2.1 ["a b".data] 1 2 "a b".data, ?_, ?_⟩
  · exact claim_C7.1 "2.0 3.0".data ["1.0".data] [] (by decide) (by decide)
      (by decide)
  · exact claim_C7.2.2.1 (Builder.new.withLabels ["A".data]) ["7".data]
      ["A".data] 2 ["7".data] [] [] (by decide) (by decide) (by decide)
  · exact claim_C7.2.2.2.2 ((Builder.new.withLabels ["A".data]).dataColumn 0)
      "f.txt".data ["1.0 junk".data] ["A".data] 1 "1.0 junk".data (by decide)

/-! ## Claim C8 -/

theorem sliceRows_length (vs : List Q) (n : Nat) :
    (sliceRows vs n).length = n := by
  simp [sliceRows]

theorem sliceRows_shape {vs : List Q} {n : Nat} (hn : 1 ≤ n) :
    ∃ rest, sliceRows vs n = vs.take n :: rest := by
  have hlen : (sliceRows vs n).length = n := sliceRows_length vs n
  have hne : sliceRows vs n ≠ [] := by
    intro hnil
    rw [hnil] at hlen
    simp at hlen
    omega
  obtain ⟨d0, rest, hd⟩ := List.exists_cons_of_ne_nil hne
  have h0 : (sliceRows vs n).get? 0 = some (vs.take n) := by
    unfold sliceRows
    rw [List.get?_map, List.get?_range (by omega : 0 < n)]
    simp
  rw [hd] at h0
  simp only [List.get?_cons_zero, Option.some.injEq] at h0
  exact ⟨rest, by rw [hd, h0]⟩

theorem sliceRows_cellGet {n : Nat} (data : List Q) {i j : Nat}
    (hi : i < n) (hj : j < n) :
    cellGet (sliceRows data n) i j = data.get? (i * n + j) := by
  unfold cellGet sliceRows
  rw [List.get?_map, List.get?_range hi, Option.map_some', Option.some_bind,
    List.get?_take hj, List.get?_drop]

theorem sliceRows_dmNew {vs : List Q} {n : Nat} {rl cl : List Str}
    (hn : 1 ≤ n) (hle : n ≤ vs.length)
    (hrl : rl.length = n) (hcl : cl.length = n) :
    dmNew (sliceRows vs n) rl cl = .ok ⟨sliceRows vs n, rl, cl⟩ := by
  obtain ⟨rest, hs⟩ := @sliceRows_shape vs n hn
  refine dmNew_total hs ?_ ?_
  · rw [sliceRows_length, hrl]
  · rw [List.length_take, hcl]
    exact Nat.min_eq_left hle

theorem fromData_ok_none {b : Builder} {n : Nat} {data : List Q}
    (hlab : b.labels = none) (hn : 1 ≤ n) (hlen : data.length = n * n) :
    fromData b data =
      .ok ⟨sliceRows data n,
        (List.range n).map (fun i => "row-".data ++ natToStr (i + 1)),
        (List.range n).map (fun i => "col-".data ++ natToStr (i + 1))⟩ := by
  have hsq : isqrt data.length = n := by
    rw [isqrt_eq_sqrt, hlen, Nat.sqrt_eq]
  have hle : n ≤ data.length := by
    rw [hlen]
    exact Nat.le_mul_of_pos_right n hn
  unfold fromData
  dsimp only
  rw [hsq, hlen, if_neg (by omega : ¬ n * n ≠ n * n), hlab]
  dsimp only
  exact sliceRows_dmNew hn hle (by simp) (by simp)

theorem fromData_ok_some {b : Builder} {n : Nat} {data : List Q}
    {ls : List Str}
    (hlab : b.labels = some ls) (hls : ls.length = n) (hn : 1 ≤ n)
    (hlen : data.length = n * n) :
    fromData b data = .ok ⟨sliceRows data n, ls, ls⟩ := by
  have hsq : isqrt data.length = n := by
    rw [isqrt_eq_sqrt, hlen, Nat.sqrt_eq]
  have hle : n ≤ data.length := by
    rw [hlen]
    exact Nat.le_mul_of_pos_right n hn
  unfold fromData
  dsimp only
  rw [hsq, hlen, if_neg (by omega : ¬ n * n ≠ n * n), hlab]
  dsimp only
  exact sliceRows_dmNew hn hle hls hls

/-- C8 counterexample: with zero values and zero labels both builds
panic (in `DataMatrix::new`, whose error arm indexes `data[0]`) instead
of yielding a `0 × 0` matrix, although `0 = 0 * 0` values were given. -/
theorem claim_C8_counterexample :
    fromData Builder.new [] = .panicked ∧
    fromFile (Builder.new.withLabels []) "f.txt".data [] = .panicked := by
  exact ⟨by decide, by decide⟩

/-- C8 (amended): for `n ≥ 1`, `from_data` on `n * n` values yields the
matrix whose rows are the `n` consecutive slices of length `n` — with
1-based labels `row-{i}` / `col-{i}` when no labels are supplied, and
with the supplied labels (when they number `n`) on both axes;
`from_file` with a label list behaves the same on the collected column
values; the sliced grid is row-major (`get(i,j)` is the value at
`i * n + j`) and is `n × n`.  For `n = 0` both builds panic. -/
theorem claim_C8 :
    (∀ (b : Builder) (n : Nat) (data : List Q),
      b.labels = none → 1 ≤ n → data.length = n * n →
      fromData b data =
        .ok ⟨sliceRows data n,
          (List.range n).map (fun i => "row-".data ++ natToStr (i + 1)),
          (List.range n).map (fun i => "col-".data ++ natToStr (i + 1))⟩) ∧
    (∀ (b : Builder) (n : Nat) (data : List Q) (ls : List Str),
      b.labels = some ls → ls.length = n → 1 ≤ n → data.length = n * n →
      fromData b data = .ok ⟨sliceRows data n, ls, ls⟩) ∧
    (∀ (n : Nat) (data : List Q) (rl cl : List Str) (i j : Nat),
      i < n → j < n →
      DataMatrix.get ⟨sliceRows data n, rl, cl⟩ i j =
        data.get? (i * n + j)) ∧
    (∀ (n : Nat) (data : List Q) (rl cl : List Str),
      1 ≤ n → n ≤ data.length →
      DataMatrix.nrows ⟨sliceRows data n, rl, cl⟩ = n ∧
      DataMatrix.ncols ⟨sliceRows data n, rl, cl⟩ = n) ∧
    (∀ (b : Builder) (path : Str) (lines labels : List Str) (vs : List Q),
      b.labels = some labels →
      readOneColumnAux b.data_col
          (parsePlain ' ' b.skip_header lines).enum [] = .ok vs →
      vs.length = labels.length * labels.length →
      1 ≤ labels.length →
      fromFile b path lines =
        .ok ⟨sliceRows vs labels.length, labels, labels⟩) ∧
    (fromData Builder.new [0, 1, 2, 3, 4, 5, 6, 7, 8] =
      .ok ⟨[[0, 1, 2], [3, 4, 5], [6, 7, 8]],
        ["row-1".data, "row-2".data, "row-3".data],
        ["col-1".data, "col-2".data, "col-3".data]⟩ ∧
     (DataMatrix.get ⟨[[0, 1, 2], [3, 4, 5], [6, 7, 8]],
        ["row-1".data, "row-2".data, "row-3".data],
        ["col-1".data, "col-2".data, "col-3".data]⟩ 0 0 = some 0)) := by
  refine ⟨fun b n data h1 h2 h3 => fromData_ok_none h1 h2 h3,
    fun b n data ls h1 h2 h3 h4 => fromData_ok_some h1 h2 h3 h4,
    ?_, ?_, ?_, by decide, by decide⟩
  · intro n data rl cl i j hi hj
    exact sliceRows_cellGet data hi hj
  · intro n data rl cl hn hle
    constructor
    · simp [DataMatrix.nrows, sliceRows_length]
    · obtain ⟨rest, hs⟩ := @sliceRows_shape data n hn
      unfold DataMatrix.ncols
      dsimp only
      rw [hs]
      simp only [List.head?_cons]
      rw [List.length_take]
      exact Nat.min_eq_left hle
  · intro b path lines labels vs hlab haux hvs hn
    unfold fromFile
    rw [hlab]
    unfold readOneColumn
    simp only [haux, Res.bind_ok]
    rw [if_neg (by omega : ¬ labels.length * labels.length ≠ vs.length)]
    exact sliceRows_dmNew hn (by rw [hvs]; exact Nat.le_mul_of_pos_right _ hn)
      rfl rfl

/-- Witness for C8 at `n = 2` and the documented `3 × 3` example. -/
theorem claim_C8_witness :
    (1 ≤ 2 ∧ ([1, 2, 3, 4] : List Q).length = 2 * 2) ∧
    fromData Builder.new [1, 2, 3, 4] =
      .ok ⟨sliceRows [1, 2, 3, 4] 2,
        (List.range 2).map (fun i => "row-".data ++ natToStr (i + 1)),
        (List.range 2).map (fun i => "col-".data ++ natToStr (i + 1))⟩ ∧
    fromData (Builder.new.withLabels ["A".data, "B".data]) [1, 2, 3, 4] =
      .ok ⟨sliceRows [1, 2, 3, 4] 2, ["A".data, "B".data], ["A".data, "B".data]⟩ ∧
    DataMatrix.get ⟨sliceRows [1, 2, 3, 4] 2, [], []⟩ 1 0 =
      ([1, 2, 3, 4] : List Q).get? (1 * 2 + 0) ∧
    DataMatrix.nrows ⟨sliceRows [1, 2, 3, 4] 2, [], []⟩ = 2 ∧
    fromFile ((Builder.new.withLabels ["A".data]).dataColumn 0) "f.txt".data
        ["5.5".data] =
      .ok ⟨sliceRows [⟨55, 10⟩] 1, ["A".data], ["A".data]⟩ := by
  refine ⟨⟨by decide, by decide⟩, ?_, ?_, ?_, ?_, ?_⟩
  · exact claim_C8.1 Builder.new 2 [1, 2, 3, 4] (by decide) (by decide) (by decide)
  · exact claim_C8.2.1 (Builder.new.withLabels ["A".data, "B".data]) 2
      [1, 2, 3, 4] ["A".data, "B".data] (by decide) (by decide) (by decide)
      (by decide)
  · exact claim_C8.2.2.1 2 [1, 2, 3, 4] [] [] 1 0 (by decide) (by decide)
  · exact (claim_C8.2.2.2.1 2 [1, 2, 3, 4] [] [] (by decide) (by decide)).1
  · exact claim_C8.2.2.2.2.1 ((Builder.new.withLabels ["A".data]).dataColumn 0)
      "f.txt".data ["5.5".data] ["A".data] [⟨55, 10⟩] (by decide) (by decide)
      (by decide) (by decide)

/-! ## Claim C1 -/

/-- A line the `read_matrix` loop consumes without error: dropped, or
long enough with a parseable value token. -/
def fineM (cv maxCol : Nat) (line : Str) : Prop :=
  (trimStr line = [] ∨ (trimStr line).head? = some '#') ∨
    (¬ (splitWs (trimStr line)).length ≤ maxCol ∧
      (parseFloat ((splitWs (trimStr line)).getD cv [])).isSome = true)

instance (cv maxCol : Nat) (line : Str) : Decidable (fineM cv maxCol line) := by
  unfold fineM; infer_instance

/-- A line the `read_matrix_indexed` loop consumes without error. -/
def fineI (ri cix vi maxCol : Nat) (line : Str) : Prop :=
  (trimStr line = [] ∨ (trimStr line).head? = some '#') ∨
    (¬ (splitWs (trimStr line)).length ≤ maxCol ∧
      (parseNat ((splitWs (trimStr line)).getD ri [])).isSome = true ∧
      (parseNat ((splitWs (trimStr line)).getD cix [])).isSome = true ∧
      (parseFloat ((splitWs (trimStr line)).getD vi [])).isSome = true)

instance (ri cix vi maxCol : Nat) (line : Str) :
    Decidable (fineI ri cix vi maxCol line) := by
  unfold fineI; infer_instance

theorem readMatrixAux_notEnough {ci cj cv maxCol : Nat} {sym : Bool}
    {bad : Str}
    (hsurv : ¬ (trimStr bad = [] ∨ (trimStr bad).head? = some '#'))
    (hshort : (splitWs (trimStr bad)).length ≤ maxCol) :
    ∀ (pre : List Str), (∀ l ∈ pre, fineM cv maxCol l) →
    ∀ (post : List Str) (k : Nat) (m : List (Str × Nat)) (ctr : Nat)
      (es : List (Nat × Nat × Q)),
    readMatrixAux ci cj cv maxCol sym (List.enumFrom k (pre ++ bad :: post))
        m ctr es =
      .err (.NotEnoughColumns (k + pre.length + 1) (maxCol + 1)
        (trimStr bad)) := by
  intro pre
  induction pre with
  | nil =>
    intro _ post k m ctr es
    rw [List.nil_append, List.enumFrom_cons, readMatrixAux, if_neg hsurv,
      if_pos hshort]
    rfl
  | cons p pre ih =>
    intro hfine post k m ctr es
    have hrest : ∀ l ∈ pre, fineM cv maxCol l := fun l hl =>
      hfine l (List.mem_cons_of_mem _ hl)
    have harith : k + 1 + pre.length + 1 = k + (p :: pre).length + 1 := by
      simp only [List.length_cons]; omega
    rw [List.cons_append, List.enumFrom_cons, readMatrixAux]
    by_cases hdrop : trimStr p = [] ∨ (trimStr p).head? = some '#'
    · rw [if_pos hdrop, ih hrest post (k + 1), harith]
    · rcases hfine p (List.mem_cons_self _ _) with hd | ⟨hnl, hsome⟩
      · exact absurd hd hdrop
      · obtain ⟨v, hv⟩ := Option.isSome_iff_exists.mp hsome
        rw [if_neg hdrop, if_neg hnl, hv]
        dsimp only
        rw [ih hrest post (k + 1), harith]

theorem rmiAux_notEnough {rl cl ri cix vi maxCol : Nat} {sym : Bool}
    {bad : Str}
    (hsurv : ¬ (trimStr bad = [] ∨ (trimStr bad).head? = some '#'))
    (hshort : (splitWs (trimStr bad)).length ≤ maxCol) :
    ∀ (pre : List Str), (∀ l ∈ pre, fineI ri cix vi maxCol l) →
    ∀ (post : List Str) (k mx : Nat)
      (es : List (Nat × Nat × Str × Str × Q)),
    rmiAux rl cl ri cix vi maxCol sym (List.enumFrom k (pre ++ bad :: post))
        mx es =
      .err (.NotEnoughColumns (k + pre.length + 1) (maxCol + 1)
        (trimStr bad)) := by
  intro pre
  induction pre with
  | nil =>
    intro _ post k mx es
    rw [List.nil_append, List.enumFrom_cons, rmiAux, if_neg hsurv,
      if_pos hshort]
    rfl
  | cons p pre ih =>
    intro hfine post k mx es
    have hrest : ∀ l ∈ pre, fineI ri cix vi maxCol l := fun l hl =>
      hfine l (List.mem_cons_of_mem _ hl)
    have harith : k + 1 + pre.length + 1 = k + (p :: pre).length + 1 := by
      simp only [List.length_cons]; omega
    rw [List.cons_append, List.enumFrom_cons, rmiAux]
    by_cases hdrop : trimStr p = [] ∨ (trimStr p).head? = some '#'
    · rw [if_pos hdrop, ih hrest post (k + 1), harith]
    · rcases hfine p (List.mem_cons_self _ _) with hd | ⟨hnl, h1, h2, h3⟩
      · exact absurd hd hdrop
      · obtain ⟨i, hi⟩ := Option.isSome_iff_exists.mp h1
        obtain ⟨j, hj⟩ := Option.isSome_iff_exists.mp h2
        obtain ⟨v, hv⟩ := Option.isSome_iff_exists.mp h3
        rw [if_neg hdrop, if_neg hnl, hi]
        dsimp only
        rw [hj]
        dsimp only
        rw [hv]
        dsimp only
        rw [ih hrest post (k + 1), harith]

theorem ffPass1Auto_panic_short {rlc clc : Nat} {sym : Bool}
    {parts : List Str} {rest : List (List Str)}
    (h : parts.length ≤ rlc ∨ parts.length ≤ clc) (ri ci : Indexer) :
    ffPass1Auto rlc clc sym (parts :: rest) ri ci = .panicked := by
  rcases h with h | h
  · rw [ffPass1Auto, List.get?_eq_none.mpr h]
  · cases hr : parts.get? rlc with
    | none => rw [ffPass1Auto, hr]
    | some rowLab =>
      rw [ffPass1Auto, hr]
      dsimp only
      rw [List.get?_eq_none.mpr h]

/-- C1 counterexample: `from_file` without a supplied label list does
not validate column counts — on a surviving line with too few tokens
(2 tokens where the claim demands `NotEnoughColumns` with
`needed = max(0,1,2) + 1 = 3`) it panics on a raw `parts[...]` index
instead of returning the error. -/
theorem claim_C1_counterexample :
    fromFile Builder.new "f.txt".data ["a b".data] = .panicked ∧
    (splitWs (trimStr "a b".data)).length ≤ max (max 0 1) 2 := by
  exact ⟨by decide, by decide⟩

/-- C1 (amended): `read_matrix` and `read_matrix_indexed` do reject the
first surviving line with too few fields, returning `NotEnoughColumns`
whose `needed` is the maximum configured column index plus one; but
`from_file` without a supplied label list performs no such check — it
panics (raw slice indexing) when a surviving tokenized row is shorter
than a label column requires. -/
theorem claim_C1 :
    (∀ (ci cj cv : Nat) (sym : Bool) (bad : Str) (pre post : List Str),
      ¬ (trimStr bad = [] ∨ (trimStr bad).head? = some '#') →
      (splitWs (trimStr bad)).length ≤ max (max ci cj) cv →
      (∀ l ∈ pre, fineM cv (max (max ci cj) cv) l) →
      readMatrix (pre ++ bad :: post) ci cj cv sym =
        .err (.NotEnoughColumns (pre.length + 1) (max (max ci cj) cv + 1)
          (trimStr bad))) ∧
    (∀ (rl cl ri cix vi : Nat) (sym : Bool) (bad : Str) (pre post : List Str),
      ¬ (trimStr bad = [] ∨ (trimStr bad).head? = some '#') →
      (splitWs (trimStr bad)).length ≤ max (max (max (max cl rl) cix) ri) vi →
      (∀ l ∈ pre, fineI ri cix vi (max (max (max (max cl rl) cix) ri) vi) l) →
      readMatrixIndexed (pre ++ bad :: post) rl cl ri cix vi sym =
        .err (.NotEnoughColumns (pre.length + 1)
          (max (max (max (max cl rl) cix) ri) vi + 1) (trimStr bad))) ∧
    (∀ (b : Builder) (path : Str) (lines : List Str) (parts : List Str)
        (rest : List (List Str)),
      b.labels = none → b.row_idx_col = none → b.col_idx_col = none →
      parsePlain (ffSep b path) b.skip_header lines = parts :: rest →
      parts.length ≤ b.row_label_col ∨ parts.length ≤ b.col_label_col →
      fromFile b path lines = .panicked) ∧
    fromFile Builder.new "f.txt".data ["x y z w".data, "x".data] = .panicked := by
  refine ⟨?_, ?_, ?_, by decide⟩
  · intro ci cj cv sym bad pre post hsurv hshort hfine
    unfold readMatrix
    dsimp only
    rw [enumLines, List.enum, readMatrixAux_notEnough hsurv hshort pre hfine]
    simp
  · intro rl cl ri cix vi sym bad pre post hsurv hshort hfine
    unfold readMatrixIndexed
    dsimp only
    rw [enumLines, List.enum, rmiAux_notEnough hsurv hshort pre hfine]
    simp
  · intro b path lines parts rest hlab hric hcic hpp hshort
    unfold fromFile
    rw [hlab]
    dsimp only
    rw [hric, hcic]
    dsimp only
    rw [hpp, ffPass1Auto_panic_short hshort, Res.bind_panicked]

/-- Witness for C1 at concrete short lines. -/
theorem claim_C1_witness :
    readMatrix ["# c".data, "a b".data] 0 1 2 false =
      .err (.NotEnoughColumns (["# c".data].length + 1) (max (max 0 1) 2 + 1)
        (trimStr "a b".data)) ∧
    readMatrixIndexed ["A B 0 1".data] 0 1 2 3 4 false =
      .err (.NotEnoughColumns (([] : List Str).length + 1)
        (max (max (max (max 1 0) 3) 2) 4 + 1) (trimStr "A B 0 1".data)) ∧
    fromFile Builder.new "f.txt".data ["x".data] = .panicked := by
  refine ⟨?_, ?_, ?_⟩
  · exact claim_C1.1 0 1 2 false "a b".data ["# c".data] [] (by decide)
      (by decide) (by decide)
  · exact claim_C1.2.1 0 1 2 3 4 false "A B 0 1".data [] [] (by decide)
      (by decide) (by decide)
  · exact claim_C1.2.2.1 Builder.new "f.txt".data ["x".data] ["x".data] []
      (by decide) (by decide) (by decide) (by decide) (by decide)

/-! ## Claim C2 -/

theorem rmiAux_ok_bound {rl cl ri cix vi maxCol : Nat} {sym : Bool} :
    ∀ (rows : List (Nat × Str)) (mx0 : Nat)
      (es0 : List (Nat × Nat × Str × Str × Q)) (mx : Nat)
      (es : List (Nat × Nat × Str × Str × Q)),
    rmiAux rl cl ri cix vi maxCol sym rows mx0 es0 = .ok (mx, es) →
    mx0 ≤ mx ∧ ∀ e ∈ es, e ∈ es0 ∨ (e.1 ≤ mx ∧ e.2.1 ≤ mx) := by
  intro rows
  induction rows with
  | nil =>
    intro mx0 es0 mx es h
    rw [rmiAux] at h
    injection h with h
    rw [Prod.mk.injEq] at h
    obtain ⟨h1, h2⟩ := h
    subst h1
    subst h2
    exact ⟨le_refl _, fun e he => Or.inl he⟩
  | cons p rest ih =>
    obtain ⟨ln, line⟩ := p
    intro mx0 es0 mx es h
    rw [rmiAux] at h
    by_cases hd : trimStr line = [] ∨ (trimStr line).head? = some '#'
    · rw [if_pos hd] at h
      exact ih mx0 es0 mx es h
    · rw [if_neg hd] at h
      by_cases hs : (splitWs (trimStr line)).length ≤ maxCol
      · rw [if_pos hs] at h
        exact Res.noConfusion h
      · rw [if_neg hs] at h
        cases hpi : parseNat ((splitWs (trimStr line)).getD ri []) with
        | none => rw [hpi] at h; dsimp only at h; exact Res.noConfusion h
        | some i =>
          rw [hpi] at h
          dsimp only at h
          cases hpj : parseNat ((splitWs (trimStr line)).getD cix []) with
          | none => rw [hpj] at h; dsimp only at h; exact Res.noConfusion h
          | some j =>
            rw [hpj] at h
            dsimp only at h
            cases hpv : parseFloat ((splitWs (trimStr line)).getD vi []) with
            | none => rw [hpv] at h; dsimp only at h; exact Res.noConfusion h
            | some v =>
              rw [hpv] at h
              dsimp only at h
              obtain ⟨hle, hall⟩ := ih _ _ _ _ h
              have hi_le : i ≤ mx :=
                le_trans (le_trans (Nat.le_max_right _ _) (Nat.le_max_left _ _)) hle
              have hj_le : j ≤ mx := le_trans (Nat.le_max_right _ _) hle
              refine ⟨le_trans
                (le_trans (Nat.le_max_left _ _) (Nat.le_max_left _ _)) hle, ?_⟩
              intro e he
              rcases hall e he with hmem | hb
              · rcases List.mem_append.mp hmem with h0 | hnew
                · exact Or.inl h0
                · right
                  by_cases hsym : sym = true ∧ i ≠ j
                  · rw [if_pos hsym] at hnew
                    rcases List.mem_cons.mp hnew with rfl | hnew2
                    · exact ⟨hi_le, hj_le⟩
                    · rcases List.mem_cons.mp hnew2 with rfl | hnil2
                      · exact ⟨hj_le, hi_le⟩
                      · exact absurd hnil2 (List.not_mem_nil _)
                  · rw [if_neg hsym] at hnew
                    rcases List.mem_cons.mp hnew with rfl | hnil2
                    · exact ⟨hi_le, hj_le⟩
                    · exact absurd hnil2 (List.not_mem_nil _)
              · exact Or.inr hb

theorem rmiFill_total_grid {n : Nat} :
    ∀ (es : List (Nat × Nat × Str × Str × Q)) (g : List (List Q))
      (rlv clv : List Str),
    wellShaped g n n → rlv.length = n → clv.length = n →
    (∀ e ∈ es, e.1 < n ∧ e.2.1 < n) →
    ∃ g' rl' cl', rmiFill g rlv clv es = .ok (g', rl', cl') ∧
      writeEntries g (es.map fun e => (e.1, e.2.1, e.2.2.2.2)) = .ok g' ∧
      rl'.length = n ∧ cl'.length = n := by
  intro es
  induction es with
  | nil =>
    intro g rlv clv hs hrl hcl hb
    exact ⟨g, rlv, clv, rfl, rfl, hrl, hcl⟩
  | cons e rest ih =>
    obtain ⟨i, j, rus, cus, v⟩ := e
    intro g rlv clv hs hrl hcl hb
    obtain ⟨hi, hj⟩ := hb _ (List.mem_cons_self _ _)
    obtain ⟨g1, hg1⟩ := writeCell_total v hs hi hj
    have hs1 := wellShaped_writeCell_ok hs hg1
    obtain ⟨g', rl', cl', hfill, hwe, hrl', hcl'⟩ :=
      ih g1 (rlv.set i rus) (clv.set j cus) hs1 (by simp [hrl]) (by simp [hcl])
        (fun e he => hb e (List.mem_cons_of_mem _ he))
    refine ⟨g', rl', cl', ?_, ?_, hrl', hcl'⟩
    · rw [rmiFill, hg1, Res.bind_ok, if_pos (by rw [hrl]; exact hi),
        if_pos (by rw [hcl]; exact hj), hfill]
    · rw [List.map_cons]
      dsimp only
      rw [writeEntries, hg1, Res.bind_ok]
      exact hwe

/-- C2 counterexample: `from_file` with explicit index columns does NOT
size the matrix by `max_index + 1` — the `Indexer` counts distinct
labels, and `to_vec` panics when an explicit index is out of that
range, so sparse explicit indices panic the build. -/
theorem claim_C2_counterexample :
    fromFile ((Builder.new.indexColumns 2 3).dataColumn 4) "f.txt".data
        ["A B 0 2 1.5".data] = .panicked := by
  decide

/-- C2 (amended): `read_matrix_indexed` behaves as claimed: a successful
pass yields a `(max_index + 1) × (max_index + 1)` matrix whose cells not
written by any parsed entry are `0`, with no failure or panic caused by
sparse or non-contiguous indices.  `from_file` with explicit index
columns does not: it sizes the matrix and label vectors by the number of
DISTINCT labels, succeeding only when every explicit index falls below
that count (e.g. one line with indices `(0,0)` builds a `1 × 1` matrix),
and panics in `Indexer::to_vec` as soon as an explicit index reaches the
distinct-label count. -/
theorem claim_C2 :
    (∀ (lines : List Str) (rl cl ri cix vi : Nat) (sym : Bool) (mx : Nat)
        (es : List (Nat × Nat × Str × Str × Q)),
      rmiAux rl cl ri cix vi (max (max (max (max cl rl) cix) ri) vi) sym
          (enumLines lines) 0 [] = .ok (mx, es) →
      ∃ m : DataMatrix, readMatrixIndexed lines rl cl ri cix vi sym = .ok m ∧
        m.nrows = mx + 1 ∧ m.ncols = mx + 1 ∧
        (∀ i j, i ≤ mx → j ≤ mx →
          lastVal (es.map fun e => (e.1, e.2.1, e.2.2.2.2)) i j = none →
          m.get i j = some 0)) ∧
    readMatrixIndexed ["A B 0 3 1.5".data] 0 1 2 3 4 false =
      .ok ⟨[[0, 0, 0, ⟨15, 10⟩], [0, 0, 0, 0], [0, 0, 0, 0], [0, 0, 0, 0]],
        ["A".data, [], [], []], [[], [], [], "B".data]⟩ ∧
    fromFile ((Builder.new.indexColumns 2 3).dataColumn 4) "f.txt".data
        ["A B 0 0 1.5".data] =
      .ok ⟨[[⟨15, 10⟩]], ["A".data], ["B".data]⟩ ∧
    fromFile ((Builder.new.indexColumns 2 3).dataColumn 4) "f.txt".data
        ["A B 1 0 1.5".data] = .panicked := by
  refine ⟨?_, by decide, by decide, by decide⟩
  intro lines rl cl ri cix vi sym mx es haux
  have hbound := rmiAux_ok_bound (enumLines lines) 0 [] mx es haux
  have hb : ∀ e ∈ es, e.1 < mx + 1 ∧ e.2.1 < mx + 1 := by
    intro e he
    rcases hbound.2 e he with h0 | ⟨h1, h2⟩
    · exact absurd h0 (List.not_mem_nil _)
    · omega
  obtain ⟨g', rl', cl', hfill, hwe, hrl', hcl'⟩ :=
    rmiFill_total_grid es (zerosGrid (mx + 1) (mx + 1))
      (List.replicate (mx + 1) []) (List.replicate (mx + 1) [])
      (wellShaped_zerosGrid (mx + 1) (mx + 1)) (by simp) (by simp) hb
  obtain ⟨hlen, hrows, hcells⟩ := writeEntries_ok hwe
  have hglen : g'.length = mx + 1 := by
    rw [hlen]
    simp [zerosGrid]
  have hne : g' ≠ [] := by
    intro h0
    rw [h0] at hglen
    simp at hglen
  obtain ⟨d0, grest, hg'⟩ := List.exists_cons_of_ne_nil hne
  have hd0 : d0.length = mx + 1 := by
    have hq := hrows 0
    rw [hg'] at hq
    unfold zerosGrid at hq
    rw [get?_replicate_of_lt _ (Nat.succ_pos mx)] at hq
    simp only [List.get?_cons_zero, Option.map_some'] at hq
    rw [Option.some.injEq] at hq
    rw [hq]
    simp
  have hdm := dmNew_total hg' (by rw [hglen, hrl']) (by rw [hd0, hcl'])
  refine ⟨⟨g', rl', cl'⟩, ?_, hglen, ?_, ?_⟩
  · unfold readMatrixIndexed
    dsimp only
    rw [haux, Res.bind_ok]
    dsimp only
    rw [hfill, Res.bind_ok]
    dsimp only
    exact hdm
  · unfold DataMatrix.ncols
    dsimp only
    rw [hg']
    simp only [List.head?_cons]
    exact hd0
  · intro i j hi hj hnone
    show cellGet g' i j = some 0
    rw [hcells i j, hnone]
    dsimp only
    rw [cellGet_zerosGrid, if_pos ⟨by omega, by omega⟩]

/-- Witness for C2 at a concrete two-entry parse. -/
theorem claim_C2_witness :
    ∃ m : DataMatrix, readMatrixIndexed ["A B 0 1 2.0".data] 0 1 2 3 4 false =
        .ok m ∧
      m.nrows = 1 + 1 ∧ m.ncols = 1 + 1 ∧
      (∀ i j, i ≤ 1 → j ≤ 1 →
        lastVal (([(0, 1, "A".data, "B".data, (⟨20, 10⟩ : Q))].map
          fun e => (e.1, e.2.1, e.2.2.2.2)) : List (Nat × Nat × Q)) i j = none →
        m.get i j = some 0) := by
  exact claim_C2.1 ["A B 0 1 2.0".data] 0 1 2 3 4 false 1
    [(0, 1, "A".data, "B".data, ⟨20, 10⟩)] (by decide)

end DM
